import Mathlib

/-!
# Token usage ledger (`token-counter.js`)

A shallow embedding of the `TokenCounter` class and proofs about its
accounting and persistence behaviour.

Modelling conventions:

* A JavaScript number is `NaN` or a finite binary64 value, kept as the exact
  rational it denotes (`JsNumber`). Every arithmetic operation rounds its
  exact result to the nearest binary64 value, ties to even (`roundDouble`).
  The exponent range is not bounded: overflow to `Infinity` and gradual
  underflow, which need magnitudes above `1.7e308` or below `2.3e-308`, are
  not modelled, and `-0` is identified with `0`.
* Token counts are integers of magnitude below `2^53`, on which double
  addition is exact; they are kept as exact numbers. Pricing rates are kept
  as the decimals written in the table and enter the arithmetic as the nearest
  double.
* Objects are association lists of their own properties. The pricing table
  is a plain object, so a read also finds the properties it inherits from
  `Object.prototype` (`objectPrototypeKeys`). A value obtained from
  `JSON.parse` is a `JSON` term.
* The clock and the file system are explicit arguments. A file's text is
  identified with what `JSON.parse` makes of it (`FileText`); `JSON.stringify`
  and `JSON.parse` are library functions, taken to round-trip every value
  that `JSON.stringify` can write (it writes `NaN` as `null`).
* `Array.prototype.sort` is a library function, modelled by a stable
  insertion sort.
* A thrown exception is `Except.error`; `try`/`catch` is a `match` on it.
* Console output is not part of the model.
-/

/-- Exceptions that the modelled code can throw. -/
inductive JsError where
  | typeError
  | parseError
  | fileError
  deriving DecidableEq, Repr

/-- The floor of the binary logarithm, by halving at most `fuel` times. -/
def floorLog2Fuel : ℕ → ℕ → ℕ
  | 0, _ => 0
  | fuel + 1, n => if 2 ≤ n then floorLog2Fuel fuel (n / 2) + 1 else 0

/-- The floor of the binary logarithm of a positive natural number. -/
def floorLog2 (n : ℕ) : ℕ := floorLog2Fuel n n

/-- The binary exponent of the positive rational `a / b`: the integer `e` with
`2^e ≤ a / b < 2^(e + 1)`. -/
def binaryExponent (a b : ℕ) : ℤ :=
  if b * 2 ^ floorLog2 a ≤ a * 2 ^ floorLog2 b then (floorLog2 a : ℤ) - floorLog2 b
  else (floorLog2 a : ℤ) - floorLog2 b - 1

/-- The integer nearest to `a / b`, the even one on a tie. -/
def roundHalfEven (a b : ℕ) : ℕ :=
  if 2 * (a % b) < b then a / b
  else if b < 2 * (a % b) then a / b + 1
  else if a / b % 2 = 0 then a / b else a / b + 1

/-- The binary64 value nearest to the positive rational `a / b`: scaled by a
power of two into `[2^52, 2^53)`, rounded to an integer with ties to even, and
scaled back. -/
def roundMagnitude (a b : ℕ) : ℚ :=
  let shift : ℤ := 52 - binaryExponent a b
  let n := roundHalfEven (a * 2 ^ shift.toNat) (b * 2 ^ (-shift).toNat)
  ((n * 2 ^ (-shift).toNat : ℕ) : ℚ) / ((2 ^ shift.toNat : ℕ) : ℚ)

/-- Rounding to binary64: the double nearest to `x`, ties to the even
significand (53 significant bits, unbounded exponent). -/
def roundDouble (x : ℚ) : ℚ :=
  if x = 0 then 0
  else if x < 0 then -roundMagnitude x.num.natAbs x.den
  else roundMagnitude x.num.natAbs x.den

/-- A JavaScript number: `NaN` or a finite value. -/
inductive JsNumber where
  | nan
  | fin (q : ℚ)
  deriving DecidableEq

namespace JsNumber

/-- The number denoted by a decimal literal. -/
def ofDecimal (q : ℚ) : JsNumber := .fin (roundDouble q)

/-- The operator `+` on numbers. -/
def add : JsNumber → JsNumber → JsNumber
  | .fin a, .fin b => .fin (roundDouble (a + b))
  | _, _ => .nan

/-- The operator `-` on numbers. -/
def sub : JsNumber → JsNumber → JsNumber
  | .fin a, .fin b => .fin (roundDouble (a - b))
  | _, _ => .nan

/-- The operator `*` on numbers. -/
def mul : JsNumber → JsNumber → JsNumber
  | .fin a, .fin b => .fin (roundDouble (a * b))
  | _, _ => .nan

/-- The comparison `a <= b` of numbers: false when either is `NaN`. -/
def le : JsNumber → JsNumber → Prop
  | .fin a, .fin b => a ≤ b
  | _, _ => False

instance : LE JsNumber := ⟨JsNumber.le⟩

instance decidableLe (a b : JsNumber) : Decidable (a ≤ b) :=
  match a, b with
  | .fin x, .fin y => inferInstanceAs (Decidable (x ≤ y))
  | .nan, _ => isFalse (fun h => h)
  | .fin _, .nan => isFalse (fun h => h)

/-- The test `v > 0` that `Array.prototype.sort` makes on the result of the
comparator; a `NaN` result counts as `+0`. -/
def isPositive : JsNumber → Bool
  | .fin q => decide (0 < q)
  | .nan => false

/-- The value `x || 0` of a number that was written by `JSON.stringify` and
read back: `NaN` is written as `null`. -/
def writtenOrZero : JsNumber → ℚ
  | .fin q => q
  | .nan => 0

end JsNumber

/-- The expression `tokens / 1000`. -/
def perThousand (tokens : ℚ) : JsNumber := .fin (roundDouble (tokens / 1000))

/-- The number that `toFixed(6)` prints for a magnitude `x ≥ 0`: `x` itself
from `10^21` on, otherwise `n / 10^6` for the integer `n` that brings it
closest to `x`, the larger one on a tie. -/
def toFixed6 (x : ℚ) : ℚ :=
  if 1000000000000000000000 ≤ x then x
  else ((⌊x * 1000000 + 1 / 2⌋ : ℤ) : ℚ) / 1000000

/-- The decimal that `x.toFixed(6)` prints for a finite `x`: `toFixed` sets the
sign aside and prints the magnitude. -/
def fixed6 (x : ℚ) : ℚ :=
  if x < 0 then -toFixed6 (-x) else toFixed6 x

/-- The number `parseFloat(x.toFixed(6))`: the double nearest to the printed
decimal; `NaN` prints as `NaN`. -/
def round6 : JsNumber → JsNumber
  | .nan => .nan
  | .fin x => .fin (roundDouble (fixed6 x))

/-- A stored cost is the unrounded cost rounded to 6 decimal places: the
double nearest to a decimal within `0.0000005` of the cost, an integer
multiple of `0.000001` for costs below `10^21`; `NaN` stays `NaN`. -/
def IsRoundedTo6 : JsNumber → JsNumber → Prop
  | .nan, stored => stored = .nan
  | .fin cost, stored =>
    ∃ d : ℚ, stored = .fin (roundDouble d) ∧ |d - cost| ≤ 1 / 2000000 ∧
      (|cost| < 1000000000000000000000 → ∃ n : ℤ, d = (n : ℚ) / 1000000)

/-- A value produced by `JSON.parse`. -/
inductive JSON where
  | null
  | bool (b : Bool)
  | num (q : ℚ)
  | str (s : String)
  | arr (items : List JSON)
  | obj (fields : List (String × JSON))

/-- A number as `JSON.stringify` writes it: `NaN` becomes `null`. -/
def JSON.ofNumber : JsNumber → JSON
  | .nan => .null
  | .fin q => .num q

/-- The text of a file, identified with the outcome of `JSON.parse` on it. -/
inductive FileText where
  | malformed
  | wellFormed (value : JSON)

/-- The part of the file system the ledger touches: `content p = none` means
`fs.existsSync(p)` is false; `readFails p` / `writeFails p` mean that
`fs.readFileSync(p)` / `fs.writeFileSync(p, _)` throws. -/
structure FileSystem where
  content : String → Option FileText
  readFails : String → Bool
  writeFails : String → Bool

/-- One reading of the clock: `Date.now()` and `new Date().toISOString()`. -/
structure DateTime where
  epochMillis : ℕ
  isoString : String

/-- A pricing entry `{ input, output }`, in dollars per 1000 tokens. -/
structure ModelPricing where
  input : ℚ
  output : ℚ
  deriving DecidableEq

/-- The `pricing` object: model name to pricing entry. -/
abbrev PricingTable := List (String × ModelPricing)

/-- The value of a property read `this.pricing[key]` that is not `undefined`:
an entry of the table, or a property inherited from `Object.prototype` (a
function, or the prototype itself), which is truthy and has neither `input`
nor `output`. -/
inductive PricingValue where
  | entry (pricing : ModelPricing)
  | inherited
  deriving DecidableEq

/-- The property `value.input` as an operand of `*`: `undefined` becomes
`NaN`. -/
def PricingValue.input : PricingValue → JsNumber
  | .entry pricing => JsNumber.ofDecimal pricing.input
  | .inherited => .nan

/-- The property `value.output` as an operand of `*`. -/
def PricingValue.output : PricingValue → JsNumber
  | .entry pricing => JsNumber.ofDecimal pricing.output
  | .inherited => .nan

/-- The names of the properties of `Object.prototype`, which every plain object
inherits. -/
def objectPrototypeKeys : List String :=
  [ "constructor", "__defineGetter__", "__defineSetter__", "hasOwnProperty",
    "__lookupGetter__", "__lookupSetter__", "isPrototypeOf", "propertyIsEnumerable",
    "toString", "valueOf", "__proto__", "toLocaleString" ]

/-- The `requestRecord` object built by `trackRequest`. -/
structure RequestRecord where
  timestamp : String
  model : String
  inputTokens : ℚ
  outputTokens : ℚ
  totalTokens : ℚ
  inputCost : JsNumber
  outputCost : JsNumber
  totalCost : JsNumber
  description : String
  deriving DecidableEq

/-- The `sessionStats` object. -/
structure SessionStats where
  totalInputTokens : ℚ
  totalOutputTokens : ℚ
  totalCost : JsNumber
  requestCount : ℕ
  requests : List RequestRecord
  deriving DecidableEq

/-- The `options` argument of the constructor; `none` is an omitted (or
falsy) property. -/
structure Options where
  historyFile : Option String
  pricing : Option PricingTable

/-- The `usage` argument of `trackRequest`; `none` is an omitted property. -/
structure Usage where
  inputTokens : ℚ
  outputTokens : ℚ
  model : Option String
  requestDescription : Option String

/-- The state of a `TokenCounter` instance. -/
structure TokenCounter where
  historyFile : String
  sessionId : String
  sessionStart : DateTime
  sessionStats : SessionStats
  pricing : PricingTable
  history : JSON

/-- The object returned by `getTotalStats`. The accumulated fields are
JavaScript primitives: a number, or a string once `+=` has concatenated. -/
inductive JsPrim where
  | num (q : ℚ)
  | str (s : String)

/-- Conversions performed by the JavaScript runtime when `+` meets a value
that is not a number: `Number.prototype.toString` and `ToPrimitive` on an
array or object (which may throw). -/
structure Runtime where
  numberToString : ℚ → String
  toPrimitive : JSON → Except JsError String

/-- The accumulator object of `getTotalStats`. -/
structure TotalStats where
  totalInputTokens : JsPrim
  totalOutputTokens : JsPrim
  totalTokens : JsPrim
  totalCost : JsPrim
  requestCount : JsPrim
  sessionCount : ℕ

/-- The literal pricing table of the constructor. -/
def builtinPricing : PricingTable :=
  [ ("gpt-4", ⟨0.03, 0.06⟩),
    ("gpt-4-turbo", ⟨0.01, 0.03⟩),
    ("gpt-3.5-turbo", ⟨0.0005, 0.0015⟩),
    ("claude-3-opus", ⟨0.015, 0.075⟩),
    ("claude-3-sonnet", ⟨0.003, 0.015⟩),
    ("claude-3-haiku", ⟨0.00025, 0.00125⟩),
    ("claude-sonnet-4-5", ⟨0.003, 0.015⟩),
    ("default", ⟨0.001, 0.002⟩) ]

/-- The default history path `path.join(__dirname, 'token-usage-history.json')`,
relative to the module directory. -/
def defaultHistoryFile : String := "token-usage-history.json"

/-- Truthiness of a parsed JSON value. -/
def JSON.truthy : JSON → Bool
  | .null => false
  | .bool b => b
  | .num q => decide (q ≠ 0)
  | .str s => decide (s ≠ "")
  | .arr _ => true
  | .obj _ => true

/-- Property read `v[key]` on a parsed JSON value, for the property names the
ledger uses (never an array index): `none` is `undefined`, and reading a
property of `null` throws. -/
def JSON.getProp (v : JSON) (key : String) : Except JsError (Option JSON) :=
  match v with
  | .null => .error .typeError
  | .obj fields => .ok (fields.lookup key)
  | .arr items => .ok (if key = "length" then some (.num items.length) else none)
  | .str s => .ok (if key = "length" then some (.num s.length) else none)
  | .bool _ => .ok none
  | .num _ => .ok none

/-- Property read on a value that may be `undefined`. -/
def getPropOpt (v : Option JSON) (key : String) : Except JsError (Option JSON) :=
  match v with
  | none => .error .typeError
  | some w => w.getProp key

/-- The expression `v || 0`. -/
def orZero (v : Option JSON) : JSON :=
  match v with
  | none => .num 0
  | some w => if w.truthy then w else .num 0

/-- The expression `acc + w` where `acc` is a primitive and `w` a JSON value;
numbers are added in double arithmetic. -/
def jsAdd (rt : Runtime) (acc : JsPrim) (w : JSON) : Except JsError JsPrim :=
  match acc, w with
  | .num a, .num q => .ok (.num (roundDouble (a + q)))
  | .num a, .bool b => .ok (.num (roundDouble (a + if b then 1 else 0)))
  | .num a, .null => .ok (.num a)
  | .num a, .str s => .ok (.str (rt.numberToString a ++ s))
  | .num a, v => do
      let s ← rt.toPrimitive v
      pure (.str (rt.numberToString a ++ s))
  | .str t, .num q => .ok (.str (t ++ rt.numberToString q))
  | .str t, .bool b => .ok (.str (t ++ if b then "true" else "false"))
  | .str t, .null => .ok (.str (t ++ "null"))
  | .str t, .str s => .ok (.str (t ++ s))
  | .str t, v => do
      let s ← rt.toPrimitive v
      pure (.str (t ++ s))

namespace RequestRecord

/-- The record as `JSON.stringify` writes it and `JSON.parse` reads it back. -/
def toJSON (r : RequestRecord) : JSON :=
  .obj [ ("timestamp", .str r.timestamp),
         ("model", .str r.model),
         ("inputTokens", .num r.inputTokens),
         ("outputTokens", .num r.outputTokens),
         ("totalTokens", .num r.totalTokens),
         ("inputCost", .ofNumber r.inputCost),
         ("outputCost", .ofNumber r.outputCost),
         ("totalCost", .ofNumber r.totalCost),
         ("description", .str r.description) ]

end RequestRecord

/-- Stable insertion of `x` in front of the first element it does not have to
follow: `x` passes `y` only when `compareFn(x, y) > 0`. -/
def insertByCompare {α : Type} (compareFn : α → α → JsNumber) (x : α) : List α → List α
  | [] => [x]
  | y :: ys =>
    if (compareFn x y).isPositive then y :: insertByCompare compareFn x ys
    else x :: y :: ys

/-- A model of `Array.prototype.sort(compareFn)`: insertion sort from the right.
For a consistent comparator ECMAScript 2019 fixes the result as the stable
sorted arrangement, which this computes; when the comparator returns `NaN` it
need not be consistent and the order is left to the implementation. -/
def sortByCompare {α : Type} (compareFn : α → α → JsNumber) : List α → List α
  | [] => []
  | x :: xs => insertByCompare compareFn x (sortByCompare compareFn xs)

namespace TokenCounter

/-- The body of `loadHistory`: `this.history = JSON.parse(data)` followed by the
log line that reads `this.history.length`; any exception gives `[]`. -/
def loadHistory (fs : FileSystem) (historyFile : String) : JSON :=
  let attempt : Except JsError JSON :=
    match fs.content historyFile with
    | some text =>
      if fs.readFails historyFile then .error .fileError
      else match text with
        | .malformed => .error .parseError
        | .wellFormed v =>
          match v.getProp "length" with
          | .error e => .error e
          | .ok _ => .ok v
    | none => .ok (.arr [])
  match attempt with
  | .ok v => v
  | .error _ => .arr []

/-- The constructor `new TokenCounter(options)`. -/
def new (options : Options) (fs : FileSystem) (now : DateTime) : TokenCounter :=
  let historyFile :=
    match options.historyFile with
    | some p => if p = "" then defaultHistoryFile else p
    | none => defaultHistoryFile
  { historyFile := historyFile
    sessionId := toString now.epochMillis
    sessionStart := now
    sessionStats :=
      { totalInputTokens := 0
        totalOutputTokens := 0
        totalCost := .fin 0
        requestCount := 0
        requests := [] }
    pricing :=
      match options.pricing with
      | some table => table
      | none => builtinPricing
    history := loadHistory fs historyFile }

/-- The property read `this.pricing[key]`: an own entry, else a property
inherited from `Object.prototype`, else `undefined` (`none`). -/
def pricingAt (self : TokenCounter) (key : String) : Option PricingValue :=
  match self.pricing.lookup key with
  | some entry => some (.entry entry)
  | none => if key ∈ objectPrototypeKeys then some .inherited else none

/-- The expression `this.pricing[model] || this.pricing['default']`. -/
def modelPricing (self : TokenCounter) (model : String) : Option PricingValue :=
  match self.pricingAt model with
  | some value => some value
  | none => self.pricingAt "default"

/-- The cost `inputCost + outputCost` of a request before `toFixed`, for the
value `modelPricing` that the request is priced with. -/
def costBeforeRounding (modelPricing : PricingValue) (usage : Usage) : JsNumber :=
  ((perThousand usage.inputTokens).mul modelPricing.input).add
    ((perThousand usage.outputTokens).mul modelPricing.output)

/-- The method `trackRequest(usage)`: returns the record and the updated
instance, or throws when `modelPricing` is `undefined`. -/
def trackRequest (self : TokenCounter) (now : DateTime) (usage : Usage) :
    Except JsError (RequestRecord × TokenCounter) :=
  let model := usage.model.getD "default"
  let requestDescription := usage.requestDescription.getD ""
  match self.modelPricing model with
  | none => .error .typeError
  | some modelPricing =>
    let inputCost := (perThousand usage.inputTokens).mul modelPricing.input
    let outputCost := (perThousand usage.outputTokens).mul modelPricing.output
    let totalCost := inputCost.add outputCost
    let requestRecord : RequestRecord :=
      { timestamp := now.isoString
        model := model
        inputTokens := usage.inputTokens
        outputTokens := usage.outputTokens
        totalTokens := usage.inputTokens + usage.outputTokens
        inputCost := round6 inputCost
        outputCost := round6 outputCost
        totalCost := round6 totalCost
        description := requestDescription }
    .ok (requestRecord,
      { self with
        sessionStats :=
          { totalInputTokens := self.sessionStats.totalInputTokens + usage.inputTokens
            totalOutputTokens := self.sessionStats.totalOutputTokens + usage.outputTokens
            totalCost := self.sessionStats.totalCost.add totalCost
            requestCount := self.sessionStats.requestCount + 1
            requests := self.sessionStats.requests ++ [requestRecord] } })

/-- The method `getTopExpensiveRequests(limit = 5)`. -/
def getTopExpensiveRequests (self : TokenCounter) (limit : Option ℕ) : List RequestRecord :=
  (sortByCompare (fun a b => b.totalCost.sub a.totalCost) self.sessionStats.requests).take
    (limit.getD 5)

/-- The initial accumulator of `getTotalStats`. -/
def initialTotal (sessionCount : ℕ) : TotalStats :=
  { totalInputTokens := .num 0
    totalOutputTokens := .num 0
    totalTokens := .num 0
    totalCost := .num 0
    requestCount := .num 0
    sessionCount := sessionCount }

/-- One statement `acc.key += session.stats.key || 0` of the reducer: the new
value of `acc.key`. -/
def addStat (rt : Runtime) (acc : JsPrim) (session : JSON) (key : String) :
    Except JsError JsPrim := do
  let stats ← session.getProp "stats"
  let field ← getPropOpt stats key
  jsAdd rt acc (orZero field)

/-- The reducer callback of `getTotalStats`. -/
def addSession (rt : Runtime) (acc : TotalStats) (session : JSON) : Except JsError TotalStats := do
  let totalInputTokens ← addStat rt acc.totalInputTokens session "totalInputTokens"
  let totalOutputTokens ← addStat rt acc.totalOutputTokens session "totalOutputTokens"
  let totalTokens ← addStat rt acc.totalTokens session "totalTokens"
  let totalCost ← addStat rt acc.totalCost session "totalCost"
  let requestCount ← addStat rt acc.requestCount session "requestCount"
  pure
    { totalInputTokens := totalInputTokens
      totalOutputTokens := totalOutputTokens
      totalTokens := totalTokens
      totalCost := totalCost
      requestCount := requestCount
      sessionCount := acc.sessionCount }

/-- The call `sessions.reduce(callback, acc)`. -/
def reduceSessions (rt : Runtime) (acc : TotalStats) : List JSON → Except JsError TotalStats
  | [] => .ok acc
  | session :: rest => do
      let next ← addSession rt acc session
      reduceSessions rt next rest

/-- The method `getTotalStats()`: `none` is `null`. -/
def getTotalStats (rt : Runtime) (self : TokenCounter) : Except JsError (Option TotalStats) := do
  if !self.history.truthy then
    return none
  let length ← self.history.getProp "length"
  let lengthIsZero :=
    match length with
    | some (.num q) => decide (q = 0)
    | _ => false
  if lengthIsZero then
    return none
  match self.history with
  | .arr sessions =>
      let total ← reduceSessions rt (initialTotal sessions.length) sessions
      return some total
  | _ => throw .typeError

/-- The object pushed onto the history by `saveHistory`, as `JSON.stringify`
writes it. -/
def sessionSummary (self : TokenCounter) (now : DateTime) : JSON :=
  .obj [ ("sessionId", .str self.sessionId),
         ("sessionStart", .str self.sessionStart.isoString),
         ("sessionEnd", .str now.isoString),
         ("stats", .obj
           [ ("totalInputTokens", .num self.sessionStats.totalInputTokens),
             ("totalOutputTokens", .num self.sessionStats.totalOutputTokens),
             ("totalTokens",
               .num (self.sessionStats.totalInputTokens + self.sessionStats.totalOutputTokens)),
             ("totalCost", .ofNumber (round6 self.sessionStats.totalCost)),
             ("requestCount", .num self.sessionStats.requestCount) ]),
         ("requests", .arr (self.sessionStats.requests.map RequestRecord.toJSON)) ]

/-- The `try` block of `saveHistory`: the file system after the write. The
existing file is read and parsed, the summary is pushed (which throws unless
the parsed value is an array) and the whole file is rewritten. -/
def saveHistoryBody (self : TokenCounter) (fs : FileSystem) (now : DateTime) :
    Except JsError FileSystem :=
  let history : Except JsError JSON :=
    match fs.content self.historyFile with
    | some text =>
      if fs.readFails self.historyFile then .error .fileError
      else match text with
        | .malformed => .error .parseError
        | .wellFormed v => .ok v
    | none => .ok (.arr [])
  match history with
  | .error e => .error e
  | .ok (.arr sessions) =>
    if fs.writeFails self.historyFile then .error .fileError
    else
      .ok
        { fs with
          content := fun p =>
            if p = self.historyFile then
              some (.wellFormed (.arr (sessions ++ [sessionSummary self now])))
            else fs.content p }
  | .ok _ => .error .typeError

/-- The method `saveHistory()`: the returned boolean, the instance afterwards
and the file system afterwards. -/
def saveHistory (self : TokenCounter) (fs : FileSystem) (now : DateTime) :
    Bool × TokenCounter × FileSystem :=
  match saveHistoryBody self fs now with
  | .ok fs' => (true, self, fs')
  | .error _ => (false, self, fs)

/-- Successive `trackRequest` calls, collecting the returned records. -/
def trackRequests (self : TokenCounter) :
    List (DateTime × Usage) → Except JsError (List RequestRecord × TokenCounter)
  | [] => .ok ([], self)
  | (now, usage) :: rest =>
    match self.trackRequest now usage with
    | .error e => .error e
    | .ok (record, next) =>
      match trackRequests next rest with
      | .error e => .error e
      | .ok (records, final) => .ok (record :: records, final)

/-- The values of `sessionStats.totalCost` after each of successive
`trackRequest` calls. -/
def runningTotals (self : TokenCounter) : List (DateTime × Usage) → List JsNumber
  | [] => []
  | (now, usage) :: rest =>
    match self.trackRequest now usage with
    | .error _ => []
    | .ok (_, next) => next.sessionStats.totalCost :: runningTotals next rest

/-- The cost `inputCost + outputCost` that `trackRequest` computes for a request
before `toFixed` (`NaN` stands in when the call throws instead). -/
def unroundedCost (self : TokenCounter) (usage : Usage) : JsNumber :=
  match self.modelPricing (usage.model.getD "default") with
  | none => .nan
  | some value => costBeforeRounding value usage

/-- The sum of the `totalCost` fields of a list of records, added up in double
arithmetic from 0, left to right. -/
def sumOfTotalCosts (records : List RequestRecord) : JsNumber :=
  records.foldl (fun acc record => acc.add record.totalCost) (.fin 0)

/-- The names of the statistics that `getTotalStats` adds up. -/
def statKeys : List String :=
  ["totalInputTokens", "totalOutputTokens", "totalTokens", "totalCost", "requestCount"]

/-- A property that is missing, a number, or `null` (which is what
`JSON.stringify` writes for `NaN`). -/
def numberOrMissing : Option JSON → Bool
  | none => true
  | some (.num _) => true
  | some .null => true
  | _ => false

/-- A history element shaped like a session summary: an object whose `stats`
is an object in which each statistic is a number, `null` or missing. -/
def isSessionSummary : JSON → Bool
  | .obj fields =>
    match fields.lookup "stats" with
    | some (.obj stats) => statKeys.all (fun key => numberOrMissing (stats.lookup key))
    | _ => false
  | _ => false

/-- The statistic `session.stats[key]` of a history element, a missing one
counting as 0. -/
def statValue (session : JSON) (key : String) : ℚ :=
  match session with
  | .obj fields =>
    match fields.lookup "stats" with
    | some (.obj stats) =>
      match stats.lookup key with
      | some (.num q) => q
      | _ => 0
    | _ => 0
  | _ => 0

/-- The value of an accumulator field after the reducer has added a statistic
of each session to `start`, left to right, in double arithmetic. -/
def foldStat (start : ℚ) (sessions : List JSON) (key : String) : ℚ :=
  sessions.foldl (fun acc session => roundDouble (acc + statValue session key)) start

/-- The sum of a statistic over the sessions of a history as the reducer
computes it: from 0, left to right, in double arithmetic. -/
def sumStat (sessions : List JSON) (key : String) : ℚ :=
  foldStat 0 sessions key

/-- States of an instance reachable from construction by `trackRequest` calls. -/
inductive Reachable : TokenCounter → Prop where
  | constructed (options : Options) (fs : FileSystem) (now : DateTime) :
      Reachable (TokenCounter.new options fs now)
  | tracked {self next : TokenCounter} {record : RequestRecord} (now : DateTime)
      (usage : Usage) :
      Reachable self → self.trackRequest now usage = .ok (record, next) → Reachable next

end TokenCounter

/-- A file system with no files, on which no operation fails. -/
def emptyFileSystem : FileSystem :=
  { content := fun _ => none
    readFails := fun _ => false
    writeFails := fun _ => false }

/-- A clock reading used in examples. -/
def sampleTime : DateTime :=
  { epochMillis := 1700000000000
    isoString := "2023-11-14T22:13:20.000Z" }

/-- The constructor options of example 6 of `example-usage.js`: a custom
pricing table without a `default` key. -/
def customOptions : Options :=
  { historyFile := some "./custom-token-history.json"
    pricing := some
      [ ("my-custom-model", ⟨0.005, 0.010⟩),
        ("another-model", ⟨0.002, 0.008⟩) ] }

/-- The constructor called without arguments. -/
def noOptions : Options :=
  { historyFile := none
    pricing := none }

/-- The four requests of examples 1 and 2 of `example-usage.js`. -/
def exampleCalls : List (DateTime × Usage) :=
  [ (sampleTime, ⟨150, 300, some "gpt-4", some "web application code"⟩),
    (sampleTime, ⟨200, 450, some "claude-sonnet-4-5", some "refactoring"⟩),
    (sampleTime, ⟨100, 250, some "gpt-3.5-turbo", some "syntax question"⟩),
    (sampleTime, ⟨500, 800, some "claude-3-opus", some "architecture analysis"⟩) ]

/-- The instance of example 1 after the four requests of examples 1 and 2. -/
def exampleSession : TokenCounter :=
  match (TokenCounter.new noOptions emptyFileSystem sampleTime).trackRequests exampleCalls with
  | .ok (_, final) => final
  | .error _ => TokenCounter.new noOptions emptyFileSystem sampleTime

/-- A runtime used in examples; its conversions are never reached on numeric
statistics. -/
def sampleRuntime : Runtime :=
  { numberToString := fun _ => ""
    toPrimitive := fun _ => .error .typeError }

/-- A history of two sessions, the second with some statistics missing. -/
def sampleHistory : List JSON :=
  [ .obj [ ("sessionId", .str "1700000000000"),
           ("stats", .obj
             [ ("totalInputTokens", .num 150),
               ("totalOutputTokens", .num 300),
               ("totalTokens", .num 450),
               ("totalCost", .num (roundDouble 0.0225)),
               ("requestCount", .num 1) ]),
           ("requests", .arr []) ],
    .obj [ ("stats", .obj
             [ ("totalInputTokens", .num 100),
               ("totalCost", .num (roundDouble 0.001)),
               ("requestCount", .num 2) ]) ] ]

/-- A file system whose only file, `history.json`, holds `sampleHistory`. -/
def sampleFileSystem : FileSystem :=
  { content := fun p => if p = "history.json" then some (.wellFormed (.arr sampleHistory)) else none
    readFails := fun _ => false
    writeFails := fun _ => false }

/-- A file system whose history file at the default path holds the JSON
object `{}`, which is not an array. -/
def objectFileSystem : FileSystem :=
  { content := fun p => if p = defaultHistoryFile then some (.wellFormed (.obj [])) else none
    readFails := fun _ => false
    writeFails := fun _ => false }

/-- The instance of example 1 after its first request (150 input and 300
output tokens on `gpt-4`). -/
def firstRequestSession : TokenCounter :=
  match (TokenCounter.new noOptions emptyFileSystem sampleTime).trackRequests
      [(sampleTime, ⟨150, 300, some "gpt-4", some "web application code"⟩)] with
  | .ok (_, final) => final
  | .error _ => TokenCounter.new noOptions emptyFileSystem sampleTime

/-- A call made on an instance after construction. -/
inductive Call where
  | trackRequest (now : DateTime) (usage : Usage)
  | getTopExpensiveRequests (limit : Option ℕ)
  | getTotalStats
  | saveHistory (now : DateTime)

/-- The instance and the file system after one call. A `trackRequest` that
throws does so before any assignment and leaves the instance as it was;
`getTopExpensiveRequests` sorts a copy and `getTotalStats` folds into a new
object, so neither assigns to the instance. -/
def TokenCounter.step (state : TokenCounter × FileSystem) : Call → TokenCounter × FileSystem
  | .trackRequest now usage =>
    match state.1.trackRequest now usage with
    | .ok (_, next) => (next, state.2)
    | .error _ => state
  | .getTopExpensiveRequests _ => state
  | .getTotalStats => state
  | .saveHistory now => (state.1.saveHistory state.2 now).2

/-- The instance and the file system after a sequence of calls. -/
def TokenCounter.run (state : TokenCounter × FileSystem) : List Call → TokenCounter × FileSystem
  | [] => state
  | call :: rest => TokenCounter.run (TokenCounter.step state call) rest

/-- The value of `this.getTotalStats()` that `displayTotalStats()` obtains inside
`endSession()`, after `saveHistory()` has run, with the instance and the file
system that `endSession()` leaves. -/
def TokenCounter.endSessionStats (rt : Runtime) (self : TokenCounter) (fs : FileSystem)
    (now : DateTime) : Except JsError (Option TotalStats) × TokenCounter × FileSystem :=
  let saved := self.saveHistory fs now
  (TokenCounter.getTotalStats rt saved.2.1, saved.2.1, saved.2.2)

/-- A file system whose history file at the default path holds an array with
one element, an object without a `stats` property. -/
def statlessFileSystem : FileSystem :=
  { content := fun p =>
      if p = defaultHistoryFile then some (.wellFormed (.arr [.obj []])) else none
    readFails := fun _ => false
    writeFails := fun _ => false }

/-- A file system whose history file at the default path holds the number 5. -/
def numberFileSystem : FileSystem :=
  { content := fun p => if p = defaultHistoryFile then some (.wellFormed (.num 5)) else none
    readFails := fun _ => false
    writeFails := fun _ => false }

/-- A file system whose history file at the default path is empty, hence not
valid JSON. -/
def emptyTextFileSystem : FileSystem :=
  { content := fun p => if p = defaultHistoryFile then some .malformed else none
    readFails := fun _ => false
    writeFails := fun _ => false }

/-- A sequence of calls used in examples: a request, a save, a query of the
totals, a second request and a query of the top requests. -/
def sampleCalls : List Call :=
  [ .trackRequest sampleTime ⟨150, 300, some "gpt-4", some "web application code"⟩,
    .saveHistory sampleTime,
    .getTotalStats,
    .trackRequest sampleTime ⟨200, 450, some "claude-sonnet-4-5", some "refactoring"⟩,
    .getTopExpensiveRequests (some 3) ]

/-! ## Further sessions and files used in examples -/

/-- Three requests, the second with the model name `constructor`, which the
pricing table inherits from `Object.prototype`. -/
def inheritedNameCalls : List (DateTime × Usage) :=
  [ (sampleTime, ⟨100, 250, some "gpt-3.5-turbo", some "syntax question"⟩),
    (sampleTime, ⟨10, 10, some "constructor", some "inherited name"⟩),
    (sampleTime, ⟨150, 300, some "gpt-4", some "web application code"⟩) ]

/-- A new instance with the built-in table after `inheritedNameCalls`. -/
def inheritedNameSession : TokenCounter :=
  match (TokenCounter.new noOptions emptyFileSystem sampleTime).trackRequests
      inheritedNameCalls with
  | .ok (_, final) => final
  | .error _ => TokenCounter.new noOptions emptyFileSystem sampleTime

/-- Four requests, three of them with the same cost. -/
def tiedCalls : List (DateTime × Usage) :=
  [ (sampleTime, ⟨150, 300, some "gpt-4", some "first"⟩),
    (sampleTime, ⟨150, 300, some "gpt-4", some "second"⟩),
    (sampleTime, ⟨500, 800, some "claude-3-opus", some "opus"⟩),
    (sampleTime, ⟨150, 300, some "gpt-4", some "third"⟩) ]

/-- A new instance with the built-in table after `tiedCalls`. -/
def tiedSession : TokenCounter :=
  match (TokenCounter.new noOptions emptyFileSystem sampleTime).trackRequests tiedCalls with
  | .ok (_, final) => final
  | .error _ => TokenCounter.new noOptions emptyFileSystem sampleTime

/-- A file system whose history file at the default path holds an array with
one session summary that has no `stats` property. -/
def missingStatsFileSystem : FileSystem :=
  { content := fun p =>
      if p = defaultHistoryFile then
        some (.wellFormed (.arr
          [.obj [("sessionId", .str "1700000000000"), ("requests", .arr [])]]))
      else none
    readFails := fun _ => false
    writeFails := fun _ => false }

/-- A history of two sessions with total costs 0.1 and 0.2. -/
def decimalHistory : List JSON :=
  [ .obj [("stats", .obj [("totalCost", .num (roundDouble 0.1)), ("requestCount", .num 1)])],
    .obj [("stats", .obj [("totalCost", .num (roundDouble 0.2)), ("requestCount", .num 1)])] ]

/-- A file system whose history file at the default path holds
`decimalHistory`. -/
def decimalFileSystem : FileSystem :=
  { content := fun p =>
      if p = defaultHistoryFile then some (.wellFormed (.arr decimalHistory)) else none
    readFails := fun _ => false
    writeFails := fun _ => false }

/-- An instance on `history.json`, which holds `sampleHistory`, after one
request of 150 input and 300 output tokens on `gpt-4`. -/
def laterSession : TokenCounter :=
  match (TokenCounter.new ⟨some "history.json", none⟩ sampleFileSystem sampleTime).trackRequests
      [(sampleTime, ⟨150, 300, some "gpt-4", some "web application code"⟩)] with
  | .ok (_, final) => final
  | .error _ => TokenCounter.new ⟨some "history.json", none⟩ sampleFileSystem sampleTime

/-- An instance on a path with no file after one request of 1 input token on
`gpt-3.5-turbo`. -/
def tinySession : TokenCounter :=
  match (TokenCounter.new noOptions emptyFileSystem sampleTime).trackRequests
      [(sampleTime, ⟨1, 0, some "gpt-3.5-turbo", none⟩)] with
  | .ok (_, final) => final
  | .error _ => TokenCounter.new noOptions emptyFileSystem sampleTime

/-- Ten requests of 1 input token each on `gpt-3.5-turbo`. -/
def tinyCalls : List (DateTime × Usage) :=
  List.replicate 10 (sampleTime, ⟨1, 0, some "gpt-3.5-turbo", none⟩)

/-- A pricing table whose rates are binary fractions. -/
def binaryOptions : Options :=
  { historyFile := none
    pricing := some [("default", ⟨0.5, 0.25⟩)] }

/-! ## Rounding to binary64 -/

theorem floorLog2Fuel_spec (fuel : ℕ) :
    ∀ n, 0 < n → n ≤ fuel →
      2 ^ floorLog2Fuel fuel n ≤ n ∧ n < 2 ^ (floorLog2Fuel fuel n + 1) := by
  induction fuel with
  | zero => intro n hn hle; omega
  | succ fuel ih =>
    intro n hn hle
    unfold floorLog2Fuel
    split
    · rename_i h2
      have hhalf := ih (n / 2) (by omega) (by omega)
      constructor
      · rw [pow_succ]
        have := hhalf.1
        omega
      · rw [pow_succ]
        have := hhalf.2
        omega
    · constructor <;> simp <;> omega

theorem floorLog2_spec (n : ℕ) (hn : 0 < n) :
    2 ^ floorLog2 n ≤ n ∧ n < 2 ^ (floorLog2 n + 1) :=
  floorLog2Fuel_spec n n hn (le_refl n)

theorem binaryExponent_le (a b : ℕ) (ha : 0 < a) (hb : 0 < b) :
    (2 : ℚ) ^ binaryExponent a b ≤ (a : ℚ) / b := by
  have hla := (floorLog2_spec a ha).1
  have hlb := (floorLog2_spec b hb).2
  have hbq : (0 : ℚ) < b := by exact_mod_cast hb
  unfold binaryExponent
  split
  · rename_i h
    rw [zpow_sub₀ (by norm_num), zpow_natCast, zpow_natCast, div_le_div_iff₀ (by positivity) hbq]
    have : ((b * 2 ^ floorLog2 a : ℕ) : ℚ) ≤ ((a * 2 ^ floorLog2 b : ℕ) : ℚ) := by
      exact_mod_cast h
    push_cast at this
    linarith
  · rw [zpow_sub₀ (by norm_num), zpow_sub₀ (by norm_num), zpow_natCast, zpow_natCast, zpow_one,
      div_div, div_le_div_iff₀ (by positivity) hbq]
    have h1 : ((2 ^ floorLog2 a : ℕ) : ℚ) ≤ (a : ℚ) := by exact_mod_cast hla
    have h2 : ((b : ℕ) : ℚ) < ((2 ^ (floorLog2 b + 1) : ℕ) : ℚ) := by exact_mod_cast hlb
    push_cast at h1 h2
    have h3 : (0 : ℚ) < 2 ^ floorLog2 a := by positivity
    have h4 : (0 : ℚ) < 2 ^ floorLog2 b := by positivity
    rw [pow_succ] at h2
    nlinarith

theorem roundHalfEven_ge (a b : ℕ) : a / b ≤ roundHalfEven a b := by
  unfold roundHalfEven
  split
  · exact le_refl _
  · split
    · exact Nat.le_succ _
    · split
      · exact le_refl _
      · exact Nat.le_succ _

theorem two_zpow_split (shift : ℤ) :
    (2 : ℚ) ^ shift = (2 : ℚ) ^ shift.toNat / (2 : ℚ) ^ (-shift).toNat := by
  have h : shift = (shift.toNat : ℤ) - ((-shift).toNat : ℤ) := (Int.toNat_sub_toNat_neg shift).symm
  conv_lhs => rw [h]
  rw [zpow_sub₀ (by norm_num), zpow_natCast, zpow_natCast]

theorem roundMagnitude_pos (a b : ℕ) (ha : 0 < a) (hb : 0 < b) : 0 < roundMagnitude a b := by
  have hexp := binaryExponent_le a b ha hb
  have hbq : (0 : ℚ) < b := by exact_mod_cast hb
  unfold roundMagnitude
  simp only
  set shift : ℤ := 52 - binaryExponent a b with hshift
  have hscaled : (1 : ℚ) ≤ (a : ℚ) / b * (2 : ℚ) ^ shift := by
    have h52 : (2 : ℚ) ^ shift = (2 : ℚ) ^ (52 : ℤ) / (2 : ℚ) ^ binaryExponent a b := by
      rw [hshift, zpow_sub₀ (by norm_num)]
    have hpos : (0 : ℚ) < (2 : ℚ) ^ binaryExponent a b := by positivity
    rw [h52, ← mul_div_assoc, le_div_iff₀ hpos]
    have h2 : (1 : ℚ) ≤ (2 : ℚ) ^ (52 : ℤ) := by norm_num
    nlinarith
  have hle : b * 2 ^ (-shift).toNat ≤ a * 2 ^ shift.toNat := by
    rw [two_zpow_split shift] at hscaled
    have hp : (0 : ℚ) < (2 : ℚ) ^ (-shift).toNat := by positivity
    rw [div_mul_div_comm, le_div_iff₀ (by positivity)] at hscaled
    have : ((b * 2 ^ (-shift).toNat : ℕ) : ℚ) ≤ ((a * 2 ^ shift.toNat : ℕ) : ℚ) := by
      push_cast
      linarith
    exact_mod_cast this
  have hden : 0 < b * 2 ^ (-shift).toNat := by positivity
  have hn : 0 < roundHalfEven (a * 2 ^ shift.toNat) (b * 2 ^ (-shift).toNat) :=
    lt_of_lt_of_le (Nat.div_pos hle hden) (roundHalfEven_ge _ _)
  have hnq : (0 : ℚ) <
      ((roundHalfEven (a * 2 ^ shift.toNat) (b * 2 ^ (-shift).toNat) : ℕ) : ℚ) := by
    exact_mod_cast hn
  push_cast
  positivity

theorem roundDouble_pos_iff (x : ℚ) : 0 < roundDouble x ↔ 0 < x := by
  have hden : 0 < x.den := x.den_pos
  unfold roundDouble
  by_cases h0 : x = 0
  · simp [h0]
  · have hnum : 0 < x.num.natAbs := Int.natAbs_pos.mpr (Rat.num_ne_zero.mpr h0)
    have hmag := roundMagnitude_pos x.num.natAbs x.den hnum hden
    rw [if_neg h0]
    by_cases hneg : x < 0
    · rw [if_pos hneg]
      constructor
      · intro h; linarith
      · intro h; linarith
    · rw [if_neg hneg]
      have : 0 < x := lt_of_le_of_ne (not_lt.mp hneg) (Ne.symm h0)
      exact ⟨fun _ => this, fun _ => hmag⟩

theorem roundDouble_zero : roundDouble 0 = 0 := by simp [roundDouble]

theorem roundDouble_examples :
    roundDouble (1 / 10) = 3602879701896397 / 2 ^ 55 ∧
    roundDouble (roundDouble (1 / 10) + roundDouble (2 / 10)) = roundDouble 0.30000000000000004 ∧
    roundDouble (roundDouble (1 / 10) + roundDouble (2 / 10)) ≠ roundDouble (3 / 10) ∧
    roundDouble (2 ^ 53 + 1) = 2 ^ 53 ∧
    roundDouble (2 ^ 53 + 3) = 2 ^ 53 + 4 ∧
    roundDouble (-(1 / 10)) = -roundDouble (1 / 10) := by
  decide!

theorem isPositive_sub (a b : ℚ) :
    ((JsNumber.fin b).sub (JsNumber.fin a)).isPositive = true ↔ a < b := by
  simp only [JsNumber.sub, JsNumber.isPositive, decide_eq_true_eq, roundDouble_pos_iff]
  constructor <;> intro h <;> linarith

/-! ## Rounding to 6 decimal places -/

theorem toFixed6_sub_abs (x : ℚ) : |toFixed6 x - x| ≤ 1 / 2000000 := by
  unfold toFixed6
  split
  · simp
  · have hle : ((⌊x * 1000000 + 1 / 2⌋ : ℤ) : ℚ) ≤ x * 1000000 + 1 / 2 := Int.floor_le _
    have hlt : x * 1000000 + 1 / 2 < ((⌊x * 1000000 + 1 / 2⌋ : ℤ) : ℚ) + 1 :=
      Int.lt_floor_add_one _
    rw [abs_le]
    constructor <;> linarith

theorem fixed6_sub_abs (x : ℚ) : |fixed6 x - x| ≤ 1 / 2000000 := by
  unfold fixed6
  split
  · have h := toFixed6_sub_abs (-x)
    have heq : -toFixed6 (-x) - x = -(toFixed6 (-x) - -x) := by ring
    rw [heq, abs_neg]
    exact h
  · exact toFixed6_sub_abs x

theorem toFixed6_multiple (x : ℚ) (hx : x < 1000000000000000000000) :
    ∃ n : ℤ, toFixed6 x = (n : ℚ) / 1000000 := by
  unfold toFixed6
  rw [if_neg (not_le.mpr hx)]
  exact ⟨_, rfl⟩

theorem fixed6_multiple (x : ℚ) (hx : |x| < 1000000000000000000000) :
    ∃ n : ℤ, fixed6 x = (n : ℚ) / 1000000 := by
  unfold fixed6
  split
  · rename_i hneg
    obtain ⟨n, hn⟩ := toFixed6_multiple (-x) (by rw [abs_of_neg hneg] at hx; exact hx)
    refine ⟨-n, ?_⟩
    rw [hn]
    push_cast
    ring
  · rename_i hneg
    exact toFixed6_multiple x (by rw [abs_of_nonneg (not_lt.mp hneg)] at hx; exact hx)

theorem round6_isRoundedTo6 (cost : JsNumber) : IsRoundedTo6 cost (round6 cost) := by
  cases cost with
  | nan => rfl
  | fin x => exact ⟨fixed6 x, rfl, fixed6_sub_abs x, fixed6_multiple x⟩

theorem mem_of_lookup_eq_some {β : Type} (table : List (String × β)) (key : String) (value : β)
    (h : table.lookup key = some value) : (key, value) ∈ table := by
  induction table with
  | nil => simp at h
  | cons entry rest ih =>
    obtain ⟨k, v⟩ := entry
    rw [List.lookup_cons] at h
    by_cases hk : key = k
    · subst hk
      simp at h
      subst h
      exact List.mem_cons_self _ _
    · have hne : (key == k) = false := by simpa using hk
      rw [hne] at h
      exact List.mem_cons_of_mem _ (ih h)

/-! ## The error of rounding to binary64 -/

theorem roundHalfEven_sub_abs (a b : ℕ) (hb : 0 < b) :
    |((roundHalfEven a b : ℕ) : ℚ) - (a : ℚ) / b| ≤ 1 / 2 := by
  have hbq : (0 : ℚ) < b := by exact_mod_cast hb
  have hsplit : (a : ℚ) = (b : ℚ) * ((a / b : ℕ) : ℚ) + ((a % b : ℕ) : ℚ) := by
    exact_mod_cast (Nat.div_add_mod a b).symm
  have hmod : ((a % b : ℕ) : ℚ) < b := by exact_mod_cast Nat.mod_lt a hb
  have hmod0 : (0 : ℚ) ≤ ((a % b : ℕ) : ℚ) := by positivity
  have hdiv : (a : ℚ) / b = ((a / b : ℕ) : ℚ) + ((a % b : ℕ) : ℚ) / b := by
    rw [div_eq_iff (ne_of_gt hbq), add_mul, div_mul_cancel₀ _ (ne_of_gt hbq)]
    linarith
  rw [hdiv, abs_le]
  unfold roundHalfEven
  split
  · rename_i h
    have hq : (2 : ℚ) * ((a % b : ℕ) : ℚ) < b := by exact_mod_cast h
    have h1 : ((a % b : ℕ) : ℚ) / b ≤ 1 / 2 := by
      rw [div_le_iff₀ hbq]; linarith
    have h2 : (0 : ℚ) ≤ ((a % b : ℕ) : ℚ) / b := by positivity
    constructor <;> linarith
  · split
    · rename_i h
      have hq : (b : ℚ) < 2 * ((a % b : ℕ) : ℚ) := by exact_mod_cast h
      have h1 : (1 : ℚ) / 2 ≤ ((a % b : ℕ) : ℚ) / b := by
        rw [le_div_iff₀ hbq]; linarith
      have h2 : ((a % b : ℕ) : ℚ) / b ≤ 1 := by
        rw [div_le_iff₀ hbq]; linarith
      push_cast
      constructor <;> linarith
    · rename_i h1 h2
      have heq : 2 * (a % b) = b := by omega
      have hq : (2 : ℚ) * ((a % b : ℕ) : ℚ) = b := by exact_mod_cast heq
      have h3 : ((a % b : ℕ) : ℚ) / b = 1 / 2 := by
        rw [div_eq_iff (ne_of_gt hbq)]; linarith
      split
      · rw [h3]; constructor <;> norm_num
      · rw [h3]; push_cast; constructor <;> norm_num

theorem roundMagnitude_sub_abs (a b : ℕ) (ha : 0 < a) (hb : 0 < b) :
    |roundMagnitude a b - (a : ℚ) / b| ≤ roundMagnitude a b / 2 ^ 53 := by
  have hexp := binaryExponent_le a b ha hb
  have hbq : (0 : ℚ) < b := by exact_mod_cast hb
  unfold roundMagnitude
  simp only
  set shift : ℤ := 52 - binaryExponent a b with hshift
  have hscaled : (2 : ℚ) ^ 52 ≤ (a : ℚ) / b * (2 : ℚ) ^ shift := by
    have h52 : (2 : ℚ) ^ shift = (2 : ℚ) ^ (52 : ℤ) / (2 : ℚ) ^ binaryExponent a b := by
      rw [hshift, zpow_sub₀ (by norm_num)]
    have hpos : (0 : ℚ) < (2 : ℚ) ^ binaryExponent a b := by positivity
    rw [h52, ← mul_div_assoc, le_div_iff₀ hpos]
    have h2 : (2 : ℚ) ^ (52 : ℤ) = (2 : ℚ) ^ 52 := by norm_cast
    rw [h2]
    have h3 : (0 : ℚ) < (2 : ℚ) ^ 52 := by positivity
    nlinarith
  set P : ℕ := 2 ^ shift.toNat with hP
  set Q : ℕ := 2 ^ (-shift).toNat with hQ
  have hPq : (0 : ℚ) < (P : ℚ) := by rw [hP]; positivity
  have hQq : (0 : ℚ) < (Q : ℚ) := by rw [hQ]; positivity
  have hsplit : (2 : ℚ) ^ shift = (P : ℚ) / Q := by
    rw [two_zpow_split shift, hP, hQ]; push_cast; rfl
  rw [hsplit] at hscaled
  have hle : 2 ^ 52 * (b * Q) ≤ a * P := by
    rw [div_mul_div_comm, le_div_iff₀ (by positivity)] at hscaled
    have : ((2 ^ 52 * (b * Q) : ℕ) : ℚ) ≤ ((a * P : ℕ) : ℚ) := by
      push_cast
      linarith
    exact_mod_cast this
  have hden : 0 < b * Q := by positivity
  have hn : 2 ^ 52 ≤ roundHalfEven (a * P) (b * Q) :=
    le_trans ((Nat.le_div_iff_mul_le hden).mpr hle) (roundHalfEven_ge _ _)
  have herr := roundHalfEven_sub_abs (a * P) (b * Q) hden
  set n : ℕ := roundHalfEven (a * P) (b * Q) with hn'
  have hnq : (2 : ℚ) ^ 52 ≤ (n : ℚ) := by exact_mod_cast hn
  have hrew : ((n * Q : ℕ) : ℚ) / ((P : ℕ) : ℚ) - (a : ℚ) / b
      = ((n : ℚ) - ((a * P : ℕ) : ℚ) / ((b * Q : ℕ) : ℚ)) * ((Q : ℚ) / P) := by
    push_cast
    field_simp
    ring
  rw [hrew, abs_mul, abs_of_pos (div_pos hQq hPq)]
  have hQP : (0 : ℚ) < (Q : ℚ) / P := div_pos hQq hPq
  calc |(n : ℚ) - ((a * P : ℕ) : ℚ) / ((b * Q : ℕ) : ℚ)| * ((Q : ℚ) / P)
      ≤ 1 / 2 * ((Q : ℚ) / P) := mul_le_mul_of_nonneg_right herr (le_of_lt hQP)
    _ ≤ ((n * Q : ℕ) : ℚ) / ((P : ℕ) : ℚ) / 2 ^ 53 := by
        push_cast
        rw [mul_div_assoc, div_eq_mul_inv ((n : ℚ) * ((Q : ℚ) / P)), mul_comm (n : ℚ), mul_assoc]
        rw [mul_comm (1 / 2 : ℚ)]
        apply mul_le_mul_of_nonneg_left _ (le_of_lt hQP)
        rw [← div_eq_mul_inv, le_div_iff₀ (by positivity)]
        have : (1 : ℚ) / 2 * 2 ^ 53 = 2 ^ 52 := by norm_num
        rw [this]
        exact hnq

theorem roundDouble_sub_abs (x : ℚ) : |roundDouble x - x| ≤ |roundDouble x| / 2 ^ 53 := by
  have hden : 0 < x.den := x.den_pos
  unfold roundDouble
  by_cases h0 : x = 0
  · simp [h0]
  · have hnum : 0 < x.num.natAbs := Int.natAbs_pos.mpr (Rat.num_ne_zero.mpr h0)
    have hmag := roundMagnitude_pos x.num.natAbs x.den hnum hden
    have herr := roundMagnitude_sub_abs x.num.natAbs x.den hnum hden
    rw [if_neg h0]
    have hx : x = (x.num : ℚ) / x.den := (Rat.num_div_den x).symm
    by_cases hneg : x < 0
    · rw [if_pos hneg, abs_neg, abs_of_pos hmag]
      have hnumneg : x.num < 0 := Rat.num_neg.mpr hneg
      have habs : ((x.num.natAbs : ℕ) : ℚ) / x.den = -x := by
        have : ((x.num.natAbs : ℕ) : ℚ) = -(x.num : ℚ) := by
          rw [Nat.cast_natAbs, abs_of_neg hnumneg]
          push_cast
          rfl
        rw [this, neg_div, ← hx]
      rw [habs] at herr
      have heq : -roundMagnitude x.num.natAbs x.den - x
          = -(roundMagnitude x.num.natAbs x.den - -x) := by ring
      rw [heq, abs_neg]
      exact herr
    · rw [if_neg hneg, abs_of_pos hmag]
      have hpos : 0 < x := lt_of_le_of_ne (not_lt.mp hneg) (Ne.symm h0)
      have hnumpos : 0 < x.num := Rat.num_pos.mpr hpos
      have habs : ((x.num.natAbs : ℕ) : ℚ) / x.den = x := by
        have : ((x.num.natAbs : ℕ) : ℚ) = (x.num : ℚ) := by
          rw [Nat.cast_natAbs, abs_of_pos hnumpos]
        rw [this, ← hx]
      rw [habs] at herr
      exact herr

/-! ## Doubles are fixed points of the rounding -/

theorem binaryExponent_lt (a b : ℕ) (ha : 0 < a) (hb : 0 < b) :
    (a : ℚ) / b < (2 : ℚ) ^ (binaryExponent a b + 1) := by
  have hla := (floorLog2_spec a ha).2
  have hlb := (floorLog2_spec b hb).1
  have hbq : (0 : ℚ) < b := by exact_mod_cast hb
  have h1 : ((a : ℕ) : ℚ) < ((2 ^ (floorLog2 a + 1) : ℕ) : ℚ) := by exact_mod_cast hla
  have h2 : ((2 ^ floorLog2 b : ℕ) : ℚ) ≤ ((b : ℕ) : ℚ) := by exact_mod_cast hlb
  push_cast at h1 h2
  rw [pow_succ] at h1
  have h3 : (0 : ℚ) < 2 ^ floorLog2 a := by positivity
  have h4 : (0 : ℚ) < 2 ^ floorLog2 b := by positivity
  unfold binaryExponent
  split
  · have he : ((floorLog2 a : ℤ) - (floorLog2 b : ℤ) + 1) = ((floorLog2 a + 1 : ℕ) : ℤ) - (floorLog2 b : ℤ) := by
      push_cast; ring
    rw [he, zpow_sub₀ (by norm_num), zpow_natCast, zpow_natCast, div_lt_div_iff₀ hbq h4, pow_succ]
    nlinarith
  · rename_i h
    have hlt : a * 2 ^ floorLog2 b < b * 2 ^ floorLog2 a := not_le.mp h
    have hq : ((a * 2 ^ floorLog2 b : ℕ) : ℚ) < ((b * 2 ^ floorLog2 a : ℕ) : ℚ) := by
      exact_mod_cast hlt
    push_cast at hq
    have he : ((floorLog2 a : ℤ) - (floorLog2 b : ℤ) - 1 + 1) = (floorLog2 a : ℤ) - (floorLog2 b : ℤ) := by
      ring
    rw [he, zpow_sub₀ (by norm_num), zpow_natCast, zpow_natCast, div_lt_div_iff₀ hbq h4]
    linarith

theorem roundHalfEven_le (a b : ℕ) : roundHalfEven a b ≤ a / b + 1 := by
  unfold roundHalfEven
  split
  · exact Nat.le_succ _
  · split
    · exact le_refl _
    · split
      · exact Nat.le_succ _
      · exact le_refl _

theorem roundHalfEven_of_dvd (a b : ℕ) (hb : 0 < b) (h : b ∣ a) : roundHalfEven a b = a / b := by
  unfold roundHalfEven
  rw [Nat.mod_eq_zero_of_dvd h]
  simp [hb]

theorem roundMagnitude_of_scaled (a b m : ℕ) (hb : 0 < b)
    (h : (a : ℚ) / b * (2 : ℚ) ^ (52 - binaryExponent a b) = m) :
    roundMagnitude a b = (a : ℚ) / b := by
  have hbq : (0 : ℚ) < b := by exact_mod_cast hb
  unfold roundMagnitude
  simp only
  set shift : ℤ := 52 - binaryExponent a b with hshift
  set P : ℕ := 2 ^ shift.toNat with hP
  set Q : ℕ := 2 ^ (-shift).toNat with hQ
  have hPq : (0 : ℚ) < (P : ℚ) := by rw [hP]; positivity
  have hQq : (0 : ℚ) < (Q : ℚ) := by rw [hQ]; positivity
  have hsplit : (2 : ℚ) ^ shift = (P : ℚ) / Q := by
    rw [two_zpow_split shift, hP, hQ]; push_cast; rfl
  rw [hsplit, div_mul_div_comm, div_eq_iff (by positivity)] at h
  have hnat : a * P = m * (b * Q) := by exact_mod_cast h
  have hden : 0 < b * Q := by positivity
  have hdvd : b * Q ∣ a * P := ⟨m, by rw [hnat]; ring⟩
  rw [roundHalfEven_of_dvd _ _ hden hdvd, hnat, Nat.mul_div_cancel _ hden]
  push_cast
  rw [div_eq_div_iff (ne_of_gt hPq) (ne_of_gt hbq)]
  have : (a : ℚ) * P = m * (b * Q) := by exact_mod_cast hnat
  linear_combination (-1 : ℚ) * this

theorem roundMagnitude_form (a b : ℕ) (ha : 0 < a) (hb : 0 < b) :
    ∃ n : ℕ, 2 ^ 52 ≤ n ∧ n ≤ 2 ^ 53 ∧
      roundMagnitude a b = (n : ℚ) * (2 : ℚ) ^ (binaryExponent a b - 52) := by
  have hexp := binaryExponent_le a b ha hb
  have hexp' := binaryExponent_lt a b ha hb
  have hbq : (0 : ℚ) < b := by exact_mod_cast hb
  unfold roundMagnitude
  simp only
  set shift : ℤ := 52 - binaryExponent a b with hshift
  have hpos : (0 : ℚ) < (2 : ℚ) ^ binaryExponent a b := by positivity
  have h52 : (2 : ℚ) ^ shift = (2 : ℚ) ^ 52 / (2 : ℚ) ^ binaryExponent a b := by
    rw [hshift, zpow_sub₀ (by norm_num)]
    norm_cast
  have hscaled : (2 : ℚ) ^ 52 ≤ (a : ℚ) / b * (2 : ℚ) ^ shift := by
    rw [h52, ← mul_div_assoc, le_div_iff₀ hpos]
    have h3 : (0 : ℚ) < (2 : ℚ) ^ 52 := by positivity
    nlinarith
  have hscaled' : (a : ℚ) / b * (2 : ℚ) ^ shift < (2 : ℚ) ^ 53 := by
    rw [h52, ← mul_div_assoc, div_lt_iff₀ hpos]
    have h3 : (0 : ℚ) < (2 : ℚ) ^ 52 := by positivity
    have h4 : (2 : ℚ) ^ (binaryExponent a b + 1) = 2 ^ binaryExponent a b * 2 := by
      rw [zpow_add₀ (by norm_num), zpow_one]
    rw [h4] at hexp'
    nlinarith
  set P : ℕ := 2 ^ shift.toNat with hP
  set Q : ℕ := 2 ^ (-shift).toNat with hQ
  have hPq : (0 : ℚ) < (P : ℚ) := by rw [hP]; positivity
  have hQq : (0 : ℚ) < (Q : ℚ) := by rw [hQ]; positivity
  have hsplit : (2 : ℚ) ^ shift = (P : ℚ) / Q := by
    rw [two_zpow_split shift, hP, hQ]; push_cast; rfl
  rw [hsplit] at hscaled hscaled'
  have hden : 0 < b * Q := by positivity
  have hle : 2 ^ 52 * (b * Q) ≤ a * P := by
    rw [div_mul_div_comm, le_div_iff₀ (by positivity)] at hscaled
    have : ((2 ^ 52 * (b * Q) : ℕ) : ℚ) ≤ ((a * P : ℕ) : ℚ) := by
      push_cast
      linarith
    exact_mod_cast this
  have hlt : a * P < 2 ^ 53 * (b * Q) := by
    rw [div_mul_div_comm, div_lt_iff₀ (by positivity)] at hscaled'
    have : ((a * P : ℕ) : ℚ) < ((2 ^ 53 * (b * Q) : ℕ) : ℚ) := by
      push_cast
      linarith
    exact_mod_cast this
  have hn1 : 2 ^ 52 ≤ roundHalfEven (a * P) (b * Q) :=
    le_trans ((Nat.le_div_iff_mul_le hden).mpr hle) (roundHalfEven_ge _ _)
  have hn2 : roundHalfEven (a * P) (b * Q) ≤ 2 ^ 53 := by
    have hdiv : a * P / (b * Q) < 2 ^ 53 := (Nat.div_lt_iff_lt_mul hden).mpr hlt
    have := roundHalfEven_le (a * P) (b * Q)
    omega
  refine ⟨roundHalfEven (a * P) (b * Q), hn1, hn2, ?_⟩
  have hinv : (2 : ℚ) ^ (binaryExponent a b - 52) = (Q : ℚ) / P := by
    have : binaryExponent a b - 52 = -shift := by rw [hshift]; ring
    rw [this, zpow_neg, hsplit, inv_div]
  rw [hinv]
  push_cast
  ring

theorem roundMagnitude_fixed (a b n : ℕ) (e : ℤ) (ha : 0 < a) (hb : 0 < b)
    (hn1 : 2 ^ 52 ≤ n) (hn2 : n ≤ 2 ^ 53)
    (h : (a : ℚ) / b = (n : ℚ) * (2 : ℚ) ^ (e - 52)) :
    roundMagnitude a b = (a : ℚ) / b := by
  have hexp := binaryExponent_le a b ha hb
  have hexp' := binaryExponent_lt a b ha hb
  have hn1q : (2 : ℚ) ^ 52 ≤ (n : ℚ) := by exact_mod_cast hn1
  have hn2q : (n : ℚ) ≤ (2 : ℚ) ^ 53 := by exact_mod_cast hn2
  have hsplit : (2 : ℚ) ^ (e - 52) = (2 : ℚ) ^ e / 2 ^ 52 := by
    rw [zpow_sub₀ (by norm_num)]
    norm_cast
  have hpe : (0 : ℚ) < (2 : ℚ) ^ e := by positivity
  have hlow : (2 : ℚ) ^ e ≤ (a : ℚ) / b := by
    rw [h, hsplit, ← mul_div_assoc, le_div_iff₀ (by positivity)]
    nlinarith
  have hhigh : (a : ℚ) / b ≤ (2 : ℚ) ^ (e + 1) := by
    rw [h, hsplit, ← mul_div_assoc, div_le_iff₀ (by positivity), zpow_add₀ (by norm_num), zpow_one]
    nlinarith
  have h1 : e < binaryExponent a b + 1 :=
    (zpow_lt_zpow_iff_right₀ (by norm_num : (1 : ℚ) < 2)).mp (lt_of_le_of_lt hlow hexp')
  have h2 : binaryExponent a b ≤ e + 1 :=
    (zpow_le_zpow_iff_right₀ (by norm_num : (1 : ℚ) < 2)).mp (le_trans hexp hhigh)
  rcases (by omega : binaryExponent a b = e ∨ binaryExponent a b = e + 1) with he | he
  · apply roundMagnitude_of_scaled a b n hb
    rw [he, h, mul_assoc, ← zpow_add₀ (by norm_num)]
    have : e - 52 + (52 - e) = 0 := by ring
    rw [this, zpow_zero, mul_one]
  · have hfull : (n : ℚ) = (2 : ℚ) ^ 53 := by
      apply le_antisymm hn2q
      rw [he, h, hsplit, ← mul_div_assoc, le_div_iff₀ (by positivity), zpow_add₀ (by norm_num),
        zpow_one] at hexp
      nlinarith
    apply roundMagnitude_of_scaled a b (2 ^ 52) hb
    rw [he, h, hfull, mul_assoc, ← zpow_add₀ (by norm_num)]
    have : e - 52 + (52 - (e + 1)) = -1 := by ring
    rw [this]
    norm_num

theorem roundMagnitude_num_den (a b : ℕ) (ha : 0 < a) (hb : 0 < b) :
    roundMagnitude (roundMagnitude a b).num.natAbs (roundMagnitude a b).den
      = roundMagnitude a b := by
  obtain ⟨n, hn1, hn2, hform⟩ := roundMagnitude_form a b ha hb
  have hpos := roundMagnitude_pos a b ha hb
  have hnumpos : 0 < (roundMagnitude a b).num := Rat.num_pos.mpr hpos
  have hcast : (((roundMagnitude a b).num.natAbs : ℕ) : ℚ) / (roundMagnitude a b).den
      = roundMagnitude a b := by
    rw [Nat.cast_natAbs, abs_of_pos hnumpos]
    exact Rat.num_div_den _
  have hfixed := roundMagnitude_fixed (roundMagnitude a b).num.natAbs (roundMagnitude a b).den n
    (binaryExponent a b) (Int.natAbs_pos.mpr (ne_of_gt hnumpos)) (roundMagnitude a b).den_pos
    hn1 hn2 (by rw [hcast]; exact hform)
  rw [hfixed, hcast]

theorem roundDouble_idem (x : ℚ) : roundDouble (roundDouble x) = roundDouble x := by
  have hden : 0 < x.den := x.den_pos
  by_cases h0 : x = 0
  · rw [h0, roundDouble_zero, roundDouble_zero]
  · have hnum : 0 < x.num.natAbs := Int.natAbs_pos.mpr (Rat.num_ne_zero.mpr h0)
    have hmag := roundMagnitude_pos x.num.natAbs x.den hnum hden
    have hfix := roundMagnitude_num_den x.num.natAbs x.den hnum hden
    by_cases hneg : x < 0
    · have hval : roundDouble x = -roundMagnitude x.num.natAbs x.den := by
        unfold roundDouble
        rw [if_neg h0, if_pos hneg]
      rw [hval]
      have hlt : -roundMagnitude x.num.natAbs x.den < 0 := by linarith
      unfold roundDouble
      rw [if_neg (ne_of_lt hlt), if_pos hlt, Rat.neg_num, Rat.neg_den, Int.natAbs_neg, hfix]
    · have hval : roundDouble x = roundMagnitude x.num.natAbs x.den := by
        unfold roundDouble
        rw [if_neg h0, if_neg hneg]
      rw [hval]
      unfold roundDouble
      rw [if_neg (ne_of_gt hmag), if_neg (not_lt.mpr (le_of_lt hmag)), hfix]

/-! ## Tracking a request -/

namespace TokenCounter

theorem trackRequest_of_pricing (self : TokenCounter) (now : DateTime) (usage : Usage)
    (value : PricingValue) (h : self.modelPricing (usage.model.getD "default") = some value) :
    self.trackRequest now usage = .ok
      ({ timestamp := now.isoString
         model := usage.model.getD "default"
         inputTokens := usage.inputTokens
         outputTokens := usage.outputTokens
         totalTokens := usage.inputTokens + usage.outputTokens
         inputCost := round6 ((perThousand usage.inputTokens).mul value.input)
         outputCost := round6 ((perThousand usage.outputTokens).mul value.output)
         totalCost := round6 (costBeforeRounding value usage)
         description := usage.requestDescription.getD "" },
       { self with
         sessionStats :=
           { totalInputTokens := self.sessionStats.totalInputTokens + usage.inputTokens
             totalOutputTokens := self.sessionStats.totalOutputTokens + usage.outputTokens
             totalCost := self.sessionStats.totalCost.add (costBeforeRounding value usage)
             requestCount := self.sessionStats.requestCount + 1
             requests := self.sessionStats.requests ++
               [{ timestamp := now.isoString
                  model := usage.model.getD "default"
                  inputTokens := usage.inputTokens
                  outputTokens := usage.outputTokens
                  totalTokens := usage.inputTokens + usage.outputTokens
                  inputCost := round6 ((perThousand usage.inputTokens).mul value.input)
                  outputCost := round6 ((perThousand usage.outputTokens).mul value.output)
                  totalCost := round6 (costBeforeRounding value usage)
                  description := usage.requestDescription.getD "" }] } }) := by
  unfold trackRequest
  simp only [h]
  rfl

theorem trackRequest_of_no_pricing (self : TokenCounter) (now : DateTime) (usage : Usage)
    (h : self.modelPricing (usage.model.getD "default") = none) :
    self.trackRequest now usage = .error .typeError := by
  unfold trackRequest
  simp only [h]

theorem modelPricing_of_undefined (self : TokenCounter) (model : String)
    (h : self.pricingAt model = none) :
    self.modelPricing model = self.modelPricing "default" := by
  unfold modelPricing
  rw [h]
  cases self.pricingAt "default" <;> rfl

/-- A model name for which `this.pricing[model]` is `undefined` is priced like
the model `default`: both calls have the same outcome and the returned records
differ in the model name only. -/
theorem trackRequest_fallback (self : TokenCounter) (now : DateTime)
    (inputTokens outputTokens : ℚ) (model : String) (description : Option String)
    (hundefined : self.pricingAt model = none) :
    (self.trackRequest now ⟨inputTokens, outputTokens, some model, description⟩).map
        (fun p => ({ p.1 with model := "default" } : RequestRecord))
      = (self.trackRequest now ⟨inputTokens, outputTokens, some "default", description⟩).map
        (fun p => p.1) := by
  have hsame := modelPricing_of_undefined self model hundefined
  cases hdefault : self.modelPricing "default" with
  | none =>
    rw [trackRequest_of_no_pricing self now ⟨_, _, some model, description⟩
          (by simpa [hdefault] using hsame),
        trackRequest_of_no_pricing self now ⟨_, _, some "default", description⟩
          (by simpa using hdefault)]
    rfl
  | some value =>
    rw [trackRequest_of_pricing self now ⟨_, _, some model, description⟩ value
          (by simpa [hdefault] using hsame),
        trackRequest_of_pricing self now ⟨_, _, some "default", description⟩ value
          (by simpa using hdefault)]
    rfl

/-- C1: for a model whose selected pricing value is `value` (the table entry
`this.pricing[model] || this.pricing['default']`, whose rates are the doubles
of its decimals, or a property inherited from `Object.prototype`, whose rates
are `undefined`), `trackRequest` returns a record that carries the given input
tokens, output tokens, model and description, has
`totalTokens = inputTokens + outputTokens`, and has each cost equal to
`parseFloat(cost.toFixed(6))` of the double product or sum the code computes;
each stored cost is the double nearest to a multiple of 0.000001 within
0.0000005 of the unrounded cost. -/
theorem trackRequest_record (self : TokenCounter) (now : DateTime)
    (inputTokens outputTokens : ℚ) (model description : String) (value : PricingValue)
    (hvalue : self.modelPricing model = some value) :
    ∃ record next,
      self.trackRequest now ⟨inputTokens, outputTokens, some model, some description⟩
        = .ok (record, next) ∧
      record.inputTokens = inputTokens ∧ record.outputTokens = outputTokens ∧
      record.model = model ∧ record.description = description ∧
      record.totalTokens = inputTokens + outputTokens ∧
      record.inputCost = round6 ((perThousand inputTokens).mul value.input) ∧
      record.outputCost = round6 ((perThousand outputTokens).mul value.output) ∧
      record.totalCost
        = round6 (((perThousand inputTokens).mul value.input).add
            ((perThousand outputTokens).mul value.output)) ∧
      IsRoundedTo6 ((perThousand inputTokens).mul value.input) record.inputCost ∧
      IsRoundedTo6 ((perThousand outputTokens).mul value.output) record.outputCost ∧
      IsRoundedTo6
        (((perThousand inputTokens).mul value.input).add
          ((perThousand outputTokens).mul value.output))
        record.totalCost := by
  refine ⟨_, _, trackRequest_of_pricing self now
    ⟨inputTokens, outputTokens, some model, some description⟩ value hvalue,
    rfl, rfl, rfl, rfl, rfl, rfl, rfl, rfl, ?_, ?_, ?_⟩
  · exact round6_isRoundedTo6 _
  · exact round6_isRoundedTo6 _
  · exact round6_isRoundedTo6 _

/-- C1 (witness): with the built-in table, 150 input and 300 output tokens on
`gpt-4` give costs 0.0045, 0.018 and 0.0225 and 450 total tokens; 1 input token
on `gpt-3.5-turbo`, whose cost is the double written `5e-7`, which lies just
below 0.0000005, gives the stored costs 0. -/
theorem trackRequest_record_witness :
    (TokenCounter.new noOptions emptyFileSystem sampleTime).modelPricing "gpt-4"
        = some (.entry ⟨0.03, 0.06⟩) ∧
    (∃ record next,
      (TokenCounter.new noOptions emptyFileSystem sampleTime).trackRequest sampleTime
          ⟨150, 300, some "gpt-4", some "code generation"⟩ = .ok (record, next) ∧
      record.inputCost = JsNumber.ofDecimal 0.0045 ∧
      record.outputCost = JsNumber.ofDecimal 0.018 ∧
      record.totalCost = JsNumber.ofDecimal 0.0225 ∧
      record.totalTokens = 450) ∧
    (∃ record next,
      (TokenCounter.new noOptions emptyFileSystem sampleTime).trackRequest sampleTime
          ⟨1, 0, some "gpt-3.5-turbo", some "tie"⟩ = .ok (record, next) ∧
      (perThousand 1).mul (JsNumber.ofDecimal 0.0005) = JsNumber.ofDecimal 0.0000005 ∧
      roundDouble 0.0000005 < 0.0000005 ∧
      record.inputCost = .fin 0 ∧ record.outputCost = .fin 0 ∧ record.totalCost = .fin 0) := by
  have hrate : (TokenCounter.new noOptions emptyFileSystem sampleTime).modelPricing "gpt-4"
      = some (.entry ⟨0.03, 0.06⟩) := by decide!
  have hturbo : (TokenCounter.new noOptions emptyFileSystem sampleTime).modelPricing
      "gpt-3.5-turbo" = some (.entry ⟨0.0005, 0.0015⟩) := by decide!
  refine ⟨hrate, ?_, ?_⟩
  · obtain ⟨record, next, hok, -, -, -, -, htokens, hin, hout, htotal, -⟩ :=
      trackRequest_record (TokenCounter.new noOptions emptyFileSystem sampleTime) sampleTime
        150 300 "gpt-4" "code generation" (.entry ⟨0.03, 0.06⟩) hrate
    refine ⟨record, next, hok, ?_, ?_, ?_, ?_⟩
    · rw [hin]; decide!
    · rw [hout]; decide!
    · rw [htotal]; decide!
    · rw [htokens]; norm_num
  · obtain ⟨record, next, hok, -, -, -, -, -, hin, hout, htotal, -⟩ :=
      trackRequest_record (TokenCounter.new noOptions emptyFileSystem sampleTime) sampleTime
        1 0 "gpt-3.5-turbo" "tie" (.entry ⟨0.0005, 0.0015⟩) hturbo
    refine ⟨record, next, hok, ?_, ?_, ?_, ?_, ?_⟩
    · decide!
    · decide!
    · rw [hin]; decide!
    · rw [hout]; decide!
    · rw [htotal]; decide!

end TokenCounter

namespace TokenCounter

/-- C2: on a new instance with the built-in table the model name `constructor`
has no entry, yet `this.pricing['constructor']` is the function inherited from
`Object.prototype`; `trackRequest` does not fall back to `default` and returns
`NaN` costs, while the same call with model `default` costs 0.003, as does a
call with `nonexistent-model`. -/
theorem trackRequest_inherited_name :
    (TokenCounter.new noOptions emptyFileSystem sampleTime).pricing.lookup "constructor"
      = none ∧
    (TokenCounter.new noOptions emptyFileSystem sampleTime).modelPricing "constructor"
      = some .inherited ∧
    ((TokenCounter.new noOptions emptyFileSystem sampleTime).trackRequest sampleTime
        ⟨1000, 1000, some "constructor", none⟩).toOption.map
      (fun p => (p.1.model, p.1.inputCost, p.1.outputCost, p.1.totalCost))
      = some ("constructor", .nan, .nan, .nan) ∧
    ((TokenCounter.new noOptions emptyFileSystem sampleTime).trackRequest sampleTime
        ⟨1000, 1000, some "constructor", none⟩).toOption.map
      (fun p => p.2.sessionStats.totalCost) = some .nan ∧
    ((TokenCounter.new noOptions emptyFileSystem sampleTime).trackRequest sampleTime
        ⟨1000, 1000, some "default", none⟩).toOption.map
      (fun p => (p.1.model, p.1.inputCost, p.1.outputCost, p.1.totalCost))
      = some ("default", JsNumber.ofDecimal 0.001, JsNumber.ofDecimal 0.002,
          JsNumber.ofDecimal 0.003) ∧
    ((TokenCounter.new noOptions emptyFileSystem sampleTime).trackRequest sampleTime
        ⟨1000, 1000, some "nonexistent-model", none⟩).toOption.map
      (fun p => (p.1.model, p.1.inputCost, p.1.outputCost, p.1.totalCost))
      = some ("nonexistent-model", JsNumber.ofDecimal 0.001, JsNumber.ofDecimal 0.002,
          JsNumber.ofDecimal 0.003) := by
  decide!

/-- C3: on the instance of example 6, built with a caller-supplied table of
non-negative rates that has no `default` key, `trackRequest` with a model
outside the table throws a `TypeError`. -/
theorem trackRequest_throws_without_default :
    (∀ entry ∈ (TokenCounter.new customOptions emptyFileSystem sampleTime).pricing,
      0 ≤ entry.2.input ∧ 0 ≤ entry.2.output) ∧
    (TokenCounter.new customOptions emptyFileSystem sampleTime).trackRequest sampleTime
      ⟨1000, 1000, some "gpt-4", none⟩ = .error .typeError ∧
    (TokenCounter.new customOptions emptyFileSystem sampleTime).trackRequest sampleTime
      ⟨1000, 1000, none, none⟩ = .error .typeError := by
  refine ⟨?_, ?_, ?_⟩
  · intro entry hentry
    simp only [TokenCounter.new, customOptions, List.mem_cons, List.mem_singleton,
      List.not_mem_nil, or_false] at hentry
    rcases hentry with h | h <;> subst h <;> norm_num
  · exact trackRequest_of_no_pricing _ _ _ (by decide!)
  · exact trackRequest_of_no_pricing _ _ _ (by decide!)

/-- C4 (counterexample): the instance of example 6, built with the custom
table `my-custom-model`, `another-model`, has no `default` entry, hence not the
built-in default rate 0.001/0.002. -/
theorem pricing_not_merged :
    (TokenCounter.new customOptions emptyFileSystem sampleTime).pricing.lookup "default" = none ∧
    ¬ (TokenCounter.new customOptions emptyFileSystem sampleTime).pricing.lookup "default"
        = some ⟨0.001, 0.002⟩ := by
  refine ⟨rfl, ?_⟩
  intro h
  have hnone : (TokenCounter.new customOptions emptyFileSystem sampleTime).pricing.lookup
      "default" = none := rfl
  rw [hnone] at h
  cases h

/-- C4 (amended): the pricing table of a new instance is the caller's table when
one is supplied and the built-in table otherwise; the built-in table has the
`default` entry 0.001/0.002. -/
theorem pricing_of_new (historyFile : Option String) (table : PricingTable) (fs : FileSystem)
    (now : DateTime) :
    (TokenCounter.new ⟨historyFile, some table⟩ fs now).pricing = table ∧
    (TokenCounter.new ⟨historyFile, none⟩ fs now).pricing = builtinPricing ∧
    (TokenCounter.new ⟨historyFile, none⟩ fs now).pricing.lookup "default"
      = some ⟨0.001, 0.002⟩ :=
  ⟨rfl, rfl, rfl⟩

end TokenCounter

/-! ## Session totals -/

namespace TokenCounter

theorem unroundedCost_congr (a b : TokenCounter) (usage : Usage) (h : a.pricing = b.pricing) :
    unroundedCost a usage = unroundedCost b usage := by
  unfold unroundedCost modelPricing pricingAt
  rw [h]

theorem trackRequest_ok_iff (self : TokenCounter) (now : DateTime) (usage : Usage)
    (record : RequestRecord) (next : TokenCounter)
    (hok : self.trackRequest now usage = .ok (record, next)) :
    next.pricing = self.pricing ∧ next.history = self.history ∧
    next.historyFile = self.historyFile ∧
    record.totalCost = round6 (unroundedCost self usage) ∧
    record.inputTokens = usage.inputTokens ∧ record.outputTokens = usage.outputTokens ∧
    next.sessionStats.totalCost = self.sessionStats.totalCost.add (unroundedCost self usage) ∧
    next.sessionStats.totalInputTokens
      = self.sessionStats.totalInputTokens + usage.inputTokens ∧
    next.sessionStats.totalOutputTokens
      = self.sessionStats.totalOutputTokens + usage.outputTokens ∧
    next.sessionStats.requestCount = self.sessionStats.requestCount + 1 ∧
    next.sessionStats.requests = self.sessionStats.requests ++ [record] := by
  cases hp : self.modelPricing (usage.model.getD "default") with
  | none =>
    rw [trackRequest_of_no_pricing self now usage hp] at hok
    cases hok
  | some value =>
    rw [trackRequest_of_pricing self now usage value hp] at hok
    cases hok
    simp [unroundedCost, hp]

theorem trackRequests_totalCost (calls : List (DateTime × Usage)) :
    ∀ (self : TokenCounter) (records : List RequestRecord) (final : TokenCounter),
      self.trackRequests calls = .ok (records, final) →
      final.pricing = self.pricing ∧
      final.sessionStats.totalCost
        = calls.foldl (fun acc c => acc.add (unroundedCost self c.2))
            self.sessionStats.totalCost ∧
      records.map (fun r => r.totalCost)
        = calls.map (fun c => round6 (unroundedCost self c.2)) := by
  induction calls with
  | nil =>
    intro self records final h
    simp only [trackRequests, Except.ok.injEq, Prod.mk.injEq] at h
    obtain ⟨h1, h2⟩ := h
    subst h1 h2
    simp
  | cons call rest ih =>
    intro self records final h
    obtain ⟨now, usage⟩ := call
    unfold trackRequests at h
    cases hstep : self.trackRequest now usage with
    | error e => simp [hstep] at h
    | ok step =>
      obtain ⟨record, next⟩ := step
      rw [hstep] at h
      simp only at h
      cases hrest : next.trackRequests rest with
      | error e => simp [hrest] at h
      | ok out =>
        obtain ⟨records', final'⟩ := out
        rw [hrest] at h
        simp only [Except.ok.injEq, Prod.mk.injEq] at h
        obtain ⟨h1, h2⟩ := h
        subst h1 h2
        obtain ⟨hpricing, -, -, hcost, -, -, htotal, -⟩ :=
          trackRequest_ok_iff self now usage record next hstep
        obtain ⟨ih1, ih2, ih3⟩ := ih next records' final' hrest
        have hcongr : ∀ u, unroundedCost next u = unroundedCost self u :=
          fun u => unroundedCost_congr next self u hpricing
        refine ⟨ih1.trans hpricing, ?_, ?_⟩
        · rw [ih2, htotal]
          simp only [hcongr, List.foldl_cons]
        · simp only [List.map_cons, hcost, ih3, hcongr]

/-- C5 (counterexample): after one request of 1 input token on `claude-3-haiku`
the running `sessionStats.totalCost` is 0.00000025 while the returned record
has `totalCost` 0, so the running total is not the sum of the records' costs. -/
theorem sessionTotalCost_ne_sum_of_records :
    ((TokenCounter.new noOptions emptyFileSystem sampleTime).trackRequests
        [(sampleTime, ⟨1, 0, some "claude-3-haiku", none⟩)]).toOption.map
      (fun p => (p.2.sessionStats.totalCost, p.1.map (fun r => r.totalCost),
        sumOfTotalCosts p.1,
        decide (p.2.sessionStats.totalCost = sumOfTotalCosts p.1)))
      = some (JsNumber.ofDecimal 0.00000025, [.fin 0], .fin 0, false) := by
  decide!

/-- C5 (amended): after any sequence of `trackRequest` calls on a new instance,
`sessionStats.totalCost` is the double sum, from 0 and left to right, of the
calls' unrounded costs, and the returned records carry
`parseFloat(cost.toFixed(6))` of those costs. -/
theorem sessionTotalCost_eq_sum_unrounded (options : Options) (fs : FileSystem)
    (now : DateTime) (calls : List (DateTime × Usage)) (records : List RequestRecord)
    (final : TokenCounter)
    (hrun : (TokenCounter.new options fs now).trackRequests calls = .ok (records, final)) :
    final.sessionStats.totalCost
      = calls.foldl
          (fun acc c => acc.add (unroundedCost (TokenCounter.new options fs now) c.2))
          (.fin 0) ∧
    records.map (fun r => r.totalCost)
      = calls.map (fun c => round6 (unroundedCost (TokenCounter.new options fs now) c.2)) := by
  obtain ⟨-, h2, h3⟩ := trackRequests_totalCost calls _ records final hrun
  exact ⟨h2, h3⟩

/-- C5 (witness): the first two requests of the usage example cost 0.0225 and
0.00735 and leave the running total 0.029849999999999998, their double sum,
which is not the double 0.02985. A third request of 1 input token on
`claude-3-haiku` costs 0.00000025 and is stored as 0: the running total becomes
0.02985025 while the stored costs still add up to 0.029849999999999998. -/
theorem sessionTotalCost_eq_sum_unrounded_witness :
    (∃ records final,
      (TokenCounter.new noOptions emptyFileSystem sampleTime).trackRequests
        [(sampleTime, ⟨150, 300, some "gpt-4", none⟩),
         (sampleTime, ⟨200, 450, some "claude-sonnet-4-5", none⟩)] = .ok (records, final) ∧
      final.sessionStats.totalCost
        = (JsNumber.add (JsNumber.add (.fin 0) (JsNumber.ofDecimal 0.0225))
            (JsNumber.ofDecimal 0.00735)) ∧
      final.sessionStats.totalCost = JsNumber.ofDecimal 0.029849999999999998 ∧
      final.sessionStats.totalCost ≠ JsNumber.ofDecimal 0.02985 ∧
      records.map (fun r => r.totalCost)
        = [JsNumber.ofDecimal 0.0225, JsNumber.ofDecimal 0.00735]) ∧
    (∃ records final,
      (TokenCounter.new noOptions emptyFileSystem sampleTime).trackRequests
        [(sampleTime, ⟨150, 300, some "gpt-4", none⟩),
         (sampleTime, ⟨200, 450, some "claude-sonnet-4-5", none⟩),
         (sampleTime, ⟨1, 0, some "claude-3-haiku", none⟩)] = .ok (records, final) ∧
      final.sessionStats.totalCost
        = (JsNumber.add (JsNumber.add (JsNumber.add (.fin 0) (JsNumber.ofDecimal 0.0225))
            (JsNumber.ofDecimal 0.00735)) (JsNumber.ofDecimal 0.00000025)) ∧
      final.sessionStats.totalCost = JsNumber.ofDecimal 0.02985025 ∧
      records.map (fun r => r.totalCost)
        = [JsNumber.ofDecimal 0.0225, JsNumber.ofDecimal 0.00735, .fin 0] ∧
      sumOfTotalCosts records = JsNumber.ofDecimal 0.029849999999999998) := by
  constructor
  · have hrun : ∃ records final,
        (TokenCounter.new noOptions emptyFileSystem sampleTime).trackRequests
          [(sampleTime, ⟨150, 300, some "gpt-4", none⟩),
           (sampleTime, ⟨200, 450, some "claude-sonnet-4-5", none⟩)]
          = .ok (records, final) := ⟨_, _, rfl⟩
    obtain ⟨records, final, hok⟩ := hrun
    obtain ⟨htotal, hrecords⟩ := sessionTotalCost_eq_sum_unrounded noOptions emptyFileSystem
      sampleTime _ records final hok
    refine ⟨records, final, hok, ?_, ?_, ?_, ?_⟩
    · rw [htotal]; decide!
    · rw [htotal]; decide!
    · rw [htotal]; decide!
    · rw [hrecords]; decide!
  · have hrun : ∃ records final,
        (TokenCounter.new noOptions emptyFileSystem sampleTime).trackRequests
          [(sampleTime, ⟨150, 300, some "gpt-4", none⟩),
           (sampleTime, ⟨200, 450, some "claude-sonnet-4-5", none⟩),
           (sampleTime, ⟨1, 0, some "claude-3-haiku", none⟩)]
          = .ok (records, final) := ⟨_, _, rfl⟩
    obtain ⟨records, final, hok⟩ := hrun
    obtain ⟨htotal, hrecords⟩ := sessionTotalCost_eq_sum_unrounded noOptions emptyFileSystem
      sampleTime _ records final hok
    have hsum : sumOfTotalCosts records
        = (records.map (fun r => r.totalCost)).foldl (fun acc x => acc.add x) (.fin 0) := by
      unfold sumOfTotalCosts
      rw [List.foldl_map]
    refine ⟨records, final, hok, ?_, ?_, ?_, ?_⟩
    · rw [htotal]; decide!
    · rw [htotal]; decide!
    · rw [hrecords]; decide!
    · rw [hsum, hrecords]; decide!

end TokenCounter

/-! ## Sorting -/

theorem insertByCompare_perm {α : Type} (compareFn : α → α → JsNumber) (x : α) (l : List α) :
    (insertByCompare compareFn x l).Perm (x :: l) := by
  induction l with
  | nil => exact List.Perm.refl _
  | cons y ys ih =>
    unfold insertByCompare
    split
    · exact (List.Perm.cons y ih).trans (List.Perm.swap x y ys)
    · exact List.Perm.refl _

theorem sortByCompare_perm {α : Type} (compareFn : α → α → JsNumber) (l : List α) :
    (sortByCompare compareFn l).Perm l := by
  induction l with
  | nil => exact List.Perm.refl _
  | cons x xs ih =>
    unfold sortByCompare
    exact (insertByCompare_perm compareFn x _).trans (List.Perm.cons x ih)

theorem insertByCompare_sorted {α : Type} (compareFn : α → α → JsNumber) (key : α → ℚ)
    (P : α → Prop)
    (hcmp : ∀ a b, P a → P b → ((compareFn a b).isPositive = true ↔ key a < key b))
    (x : α) (l : List α) (hx : P x) (hl : ∀ y ∈ l, P y)
    (hsorted : l.Pairwise (fun a b => key b ≤ key a)) :
    (insertByCompare compareFn x l).Pairwise (fun a b => key b ≤ key a) := by
  induction l with
  | nil => simp [insertByCompare]
  | cons y ys ih =>
    rw [List.pairwise_cons] at hsorted
    obtain ⟨hy, hys⟩ := hsorted
    have hPy : P y := hl y (List.mem_cons_self _ _)
    have hPys : ∀ z ∈ ys, P z := fun z hz => hl z (List.mem_cons_of_mem _ hz)
    unfold insertByCompare
    split
    · rename_i hpos
      have hxy : key x < key y := (hcmp x y hx hPy).mp hpos
      refine List.pairwise_cons.mpr ⟨?_, ih hPys hys⟩
      intro z hz
      have hz' := (insertByCompare_perm compareFn x ys).subset hz
      rcases List.mem_cons.mp hz' with h | h
      · rw [h]; exact le_of_lt hxy
      · exact hy z h
    · rename_i hpos
      have hyx : key y ≤ key x := by
        by_contra hlt
        exact hpos ((hcmp x y hx hPy).mpr (not_le.mp hlt))
      refine List.pairwise_cons.mpr ⟨?_, List.pairwise_cons.mpr ⟨hy, hys⟩⟩
      intro z hz
      rcases List.mem_cons.mp hz with h | h
      · rw [h]; exact hyx
      · exact le_trans (hy z h) hyx

theorem sortByCompare_sorted {α : Type} (compareFn : α → α → JsNumber) (key : α → ℚ)
    (P : α → Prop)
    (hcmp : ∀ a b, P a → P b → ((compareFn a b).isPositive = true ↔ key a < key b))
    (l : List α) (hl : ∀ y ∈ l, P y) :
    (sortByCompare compareFn l).Pairwise (fun a b => key b ≤ key a) := by
  induction l with
  | nil => simp [sortByCompare]
  | cons x xs ih =>
    have hxs : ∀ y ∈ xs, P y := fun y hy => hl y (List.mem_cons_of_mem _ hy)
    unfold sortByCompare
    refine insertByCompare_sorted compareFn key P hcmp x _ (hl x (List.mem_cons_self _ _)) ?_
      (ih hxs)
    intro y hy
    exact hxs y ((sortByCompare_perm compareFn xs).subset hy)

/-- Insertion leaves the order of the elements selected by `p` as it was when
`x` passes only elements that `p` rejects once it accepts `x`. -/
theorem insertByCompare_filter {α : Type} (compareFn : α → α → JsNumber) (p : α → Bool)
    (x : α) (l : List α)
    (hpass : ∀ y, (compareFn x y).isPositive = true → p x = true → p y = false) :
    (insertByCompare compareFn x l).filter p = (x :: l).filter p := by
  induction l with
  | nil => simp [insertByCompare]
  | cons y ys ih =>
    unfold insertByCompare
    split
    · rename_i hpos
      rw [List.filter_cons, ih]
      by_cases hx : p x = true
      · have hy : p y = false := hpass y hpos hx
        simp [List.filter_cons, hx, hy]
      · simp [List.filter_cons, hx]
    · rfl

theorem sortByCompare_filter {α : Type} (compareFn : α → α → JsNumber) (p : α → Bool)
    (l : List α)
    (hpass : ∀ x y, (compareFn x y).isPositive = true → p x = true → p y = false) :
    (sortByCompare compareFn l).filter p = l.filter p := by
  induction l with
  | nil => simp [sortByCompare]
  | cons x xs ih =>
    unfold sortByCompare
    rw [insertByCompare_filter compareFn p x _ (hpass x), List.filter_cons, List.filter_cons, ih]

/-- In a list in non-increasing order of `key`, the elements of key `c` among
the first `k` are the first ones of key `c`, as many as fit after the
elements of greater key. -/
theorem take_filter_of_sorted {α : Type} (key : α → ℚ) (c : ℚ) (l : List α)
    (hsorted : l.Pairwise (fun a b => key b ≤ key a)) :
    ∀ k, (l.take k).filter (fun r => decide (key r = c))
      = (l.filter (fun r => decide (key r = c))).take
          (k - (l.filter (fun r => decide (c < key r))).length) := by
  induction l with
  | nil => intro k; simp
  | cons x t ih =>
    rw [List.pairwise_cons] at hsorted
    obtain ⟨hx, ht⟩ := hsorted
    intro k
    cases k with
    | zero => simp
    | succ k =>
      rw [List.take_succ_cons]
      rcases lt_trichotomy (key x) c with hlt | heq | hgt
      · have hnone : ∀ y ∈ t, ¬ key y = c ∧ ¬ c < key y := by
          intro y hy
          have := hx y hy
          constructor <;> intro h <;> linarith
        have h1 : t.filter (fun r => decide (key r = c)) = [] := by
          rw [List.filter_eq_nil_iff]
          intro y hy
          simpa using (hnone y hy).1
        have h2 : (t.take k).filter (fun r => decide (key r = c)) = [] := by
          rw [List.filter_eq_nil_iff]
          intro y hy
          simpa using (hnone y (List.mem_of_mem_take hy)).1
        have hx1 : ¬ key x = c := ne_of_lt hlt
        simp [List.filter_cons, hx1, h1, h2]
      · have hnone : ∀ y ∈ t, ¬ c < key y := by
          intro y hy
          have := hx y hy
          intro h
          linarith
        have h1 : t.filter (fun r => decide (c < key r)) = [] := by
          rw [List.filter_eq_nil_iff]
          intro y hy
          simpa using hnone y hy
        have hx2 : ¬ c < key x := by rw [heq]; exact lt_irrefl _
        have hih := ih ht k
        rw [h1] at hih
        simp only [List.length_nil, Nat.sub_zero] at hih
        simp [List.filter_cons, heq, hx2, h1, hih]
      · have hx1 : ¬ key x = c := ne_of_gt hgt
        have hih := ih ht k
        simp [List.filter_cons, hx1, hgt, hih]

/-- Two arrangements in non-increasing order of `key` that list the elements of
each key in the same order are equal: the sorted and stable arrangement of a
list is unique. -/
theorem sorted_stable_unique {α : Type} (key : α → ℚ) :
    ∀ l₁ l₂ : List α,
      l₁.Pairwise (fun a b => key b ≤ key a) → l₂.Pairwise (fun a b => key b ≤ key a) →
      (∀ c, l₁.filter (fun r => decide (key r = c)) = l₂.filter (fun r => decide (key r = c))) →
      l₁ = l₂ := by
  intro l₁
  induction l₁ with
  | nil =>
    intro l₂ _ _ hfilter
    cases l₂ with
    | nil => rfl
    | cons y t₂ =>
      have h := hfilter (key y)
      simp [List.filter_cons] at h
  | cons x t₁ ih =>
    intro l₂ h₁ h₂ hfilter
    cases l₂ with
    | nil =>
      have h := hfilter (key x)
      simp [List.filter_cons] at h
    | cons y t₂ =>
      rw [List.pairwise_cons] at h₁ h₂
      have hymem : y ∈ x :: t₁ := by
        have hy : y ∈ (y :: t₂).filter (fun r => decide (key r = key y)) := by
          simp [List.filter_cons]
        rw [← hfilter (key y)] at hy
        exact List.mem_of_mem_filter hy
      have hxmem : x ∈ y :: t₂ := by
        have hx : x ∈ (x :: t₁).filter (fun r => decide (key r = key x)) := by
          simp [List.filter_cons]
        rw [hfilter (key x)] at hx
        exact List.mem_of_mem_filter hx
      have hyx : key y ≤ key x := by
        rcases List.mem_cons.mp hymem with h | h
        · rw [h]
        · exact h₁.1 y h
      have hxy : key x ≤ key y := by
        rcases List.mem_cons.mp hxmem with h | h
        · rw [h]
        · exact h₂.1 x h
      have hkey : key x = key y := le_antisymm hxy hyx
      have hhead := hfilter (key x)
      simp only [List.filter_cons, hkey, decide_True, if_true] at hhead
      have hxeq : x = y := (List.cons.inj hhead).1
      subst hxeq
      have htail : ∀ c, t₁.filter (fun r => decide (key r = c))
          = t₂.filter (fun r => decide (key r = c)) := by
        intro c
        have h := hfilter c
        by_cases hc : key x = c
        · simp only [List.filter_cons, hc, decide_True, if_true] at h
          exact (List.cons.inj h).2
        · simp only [List.filter_cons, hc, decide_False] at h
          exact h
      rw [ih t₂ h₁.2 h₂.2 htail]

theorem compare_isPositive (x y : RequestRecord) :
    (y.totalCost.sub x.totalCost).isPositive = true ↔
      ∃ a b, x.totalCost = .fin a ∧ y.totalCost = .fin b ∧ a < b := by
  cases hx : x.totalCost with
  | nan =>
    cases y.totalCost <;> simp [JsNumber.sub, JsNumber.isPositive]
  | fin a =>
    cases hy : y.totalCost with
    | nan => simp [JsNumber.sub, JsNumber.isPositive]
    | fin b =>
      rw [isPositive_sub]
      constructor
      · intro h
        exact ⟨a, b, rfl, rfl, h⟩
      · rintro ⟨a', b', ha, hb, h⟩
        cases ha
        cases hb
        exact h

theorem compare_key (x y : RequestRecord) (hx : x.totalCost ≠ .nan) (hy : y.totalCost ≠ .nan) :
    (y.totalCost.sub x.totalCost).isPositive = true ↔
      x.totalCost.writtenOrZero < y.totalCost.writtenOrZero := by
  rw [compare_isPositive]
  cases hxc : x.totalCost with
  | nan => exact absurd hxc hx
  | fin a =>
    cases hyc : y.totalCost with
    | nan => exact absurd hyc hy
    | fin b =>
      constructor
      · rintro ⟨a', b', ha, hb, h⟩
        cases ha
        cases hb
        exact h
      · intro h
        exact ⟨a, b, rfl, rfl, h⟩

theorem le_iff_key (x y : RequestRecord) (hx : x.totalCost ≠ .nan) (hy : y.totalCost ≠ .nan) :
    y.totalCost ≤ x.totalCost ↔ y.totalCost.writtenOrZero ≤ x.totalCost.writtenOrZero := by
  cases hxc : x.totalCost with
  | nan => exact absurd hxc hx
  | fin a =>
    cases hyc : y.totalCost with
    | nan => exact absurd hyc hy
    | fin b => exact Iff.rfl

theorem eq_fin_iff_key (x : RequestRecord) (c : ℚ) (hx : x.totalCost ≠ .nan) :
    x.totalCost = .fin c ↔ x.totalCost.writtenOrZero = c := by
  cases hxc : x.totalCost with
  | nan => exact absurd hxc hx
  | fin a =>
    constructor
    · intro h
      cases h
      rfl
    · intro h
      exact congrArg JsNumber.fin h

theorem exceeds_iff_key (x : RequestRecord) (c : ℚ) (hx : x.totalCost ≠ .nan) :
    (x.totalCost.sub (.fin c)).isPositive = true ↔ c < x.totalCost.writtenOrZero := by
  cases hxc : x.totalCost with
  | nan => exact absurd hxc hx
  | fin a => exact isPositive_sub c a

namespace TokenCounter

theorem reachable_requestCount (self : TokenCounter) (h : Reachable self) :
    self.sessionStats.requestCount = self.sessionStats.requests.length := by
  induction h with
  | constructed options fs now => rfl
  | tracked now usage _ hok ih =>
    obtain ⟨-, -, -, -, -, -, -, -, -, hcount, hrequests⟩ := trackRequest_ok_iff _ _ _ _ _ hok
    rw [hcount, hrequests, ih]
    simp

theorem reachable_trackRequests (calls : List (DateTime × Usage)) :
    ∀ (self : TokenCounter) (records : List RequestRecord) (final : TokenCounter),
      Reachable self → self.trackRequests calls = .ok (records, final) → Reachable final := by
  induction calls with
  | nil =>
    intro self records final hreach h
    simp only [trackRequests, Except.ok.injEq, Prod.mk.injEq] at h
    rw [← h.2]
    exact hreach
  | cons call rest ih =>
    intro self records final hreach h
    obtain ⟨now, usage⟩ := call
    unfold trackRequests at h
    cases hstep : self.trackRequest now usage with
    | error e => simp [hstep] at h
    | ok step =>
      obtain ⟨record, next⟩ := step
      rw [hstep] at h
      simp only at h
      cases hrest : next.trackRequests rest with
      | error e => simp [hrest] at h
      | ok out =>
        obtain ⟨records', final'⟩ := out
        rw [hrest] at h
        simp only [Except.ok.injEq, Prod.mk.injEq] at h
        rw [← h.2]
        exact ih next records' final' (Reachable.tracked now usage hreach hstep) hrest

theorem sorted_requests_of_numeric (requests : List RequestRecord)
    (hnumeric : ∀ r ∈ requests, r.totalCost ≠ .nan) :
    (sortByCompare (fun a b : RequestRecord => b.totalCost.sub a.totalCost) requests).Pairwise
      (fun a b => b.totalCost.writtenOrZero ≤ a.totalCost.writtenOrZero) :=
  sortByCompare_sorted (fun a b : RequestRecord => b.totalCost.sub a.totalCost)
    (fun r => r.totalCost.writtenOrZero) (fun r => r.totalCost ≠ .nan)
    (fun a b ha hb => compare_key a b ha hb) requests hnumeric

theorem sorted_requests_filter (requests : List RequestRecord) (cost : ℚ) :
    (sortByCompare (fun a b : RequestRecord => b.totalCost.sub a.totalCost) requests).filter
        (fun r => decide (r.totalCost = .fin cost))
      = requests.filter (fun r => decide (r.totalCost = .fin cost)) := by
  apply sortByCompare_filter
  intro x y hpos hx
  obtain ⟨a, b, hxa, hyb, hab⟩ := (compare_isPositive x y).mp hpos
  have hxc : x.totalCost = .fin cost := by simpa using hx
  rw [hxa] at hxc
  cases hxc
  simp only [hyb, decide_eq_false_iff_not]
  intro h
  cases h
  exact lt_irrefl _ hab

/-- For records with numeric costs the model of `sort` returns the only
arrangement that is in non-increasing order of `totalCost` and keeps records
of equal cost in tracking order, the one ECMAScript 2019 requires. -/
theorem sorted_requests_unique (requests sorted : List RequestRecord)
    (hnumeric : ∀ r ∈ requests, r.totalCost ≠ .nan)
    (hsorted : sorted.Pairwise
      (fun a b => b.totalCost.writtenOrZero ≤ a.totalCost.writtenOrZero))
    (hstable : ∀ c, sorted.filter (fun r => decide (r.totalCost.writtenOrZero = c))
      = requests.filter (fun r => decide (r.totalCost.writtenOrZero = c))) :
    sorted = sortByCompare (fun a b : RequestRecord => b.totalCost.sub a.totalCost) requests := by
  apply sorted_stable_unique (fun r : RequestRecord => r.totalCost.writtenOrZero) _ _ hsorted
    (sorted_requests_of_numeric requests hnumeric)
  intro c
  rw [hstable c]
  have hperm := sortByCompare_perm (fun a b : RequestRecord => b.totalCost.sub a.totalCost)
    requests
  have h1 : (sortByCompare (fun a b : RequestRecord => b.totalCost.sub a.totalCost)
      requests).filter (fun r => decide (r.totalCost.writtenOrZero = c))
      = (sortByCompare (fun a b : RequestRecord => b.totalCost.sub a.totalCost)
      requests).filter (fun r => decide (r.totalCost = .fin c)) := by
    apply List.filter_congr
    intro r hr
    have := eq_fin_iff_key r c (hnumeric r (hperm.subset hr))
    simp only [decide_eq_decide]
    exact this.symm
  have h2 : requests.filter (fun r => decide (r.totalCost.writtenOrZero = c))
      = requests.filter (fun r => decide (r.totalCost = .fin c)) := by
    apply List.filter_congr
    intro r hr
    have := eq_fin_iff_key r c (hnumeric r hr)
    simp only [decide_eq_decide]
    exact this.symm
  rw [h1, h2, sorted_requests_filter]

end TokenCounter

namespace TokenCounter

theorem exampleSession_reachable : Reachable exampleSession := by
  have hrun : ∃ records, (TokenCounter.new noOptions emptyFileSystem sampleTime).trackRequests
      exampleCalls = .ok (records, exampleSession) := ⟨_, rfl⟩
  obtain ⟨records, hrun⟩ := hrun
  exact reachable_trackRequests _ _ _ _ (Reachable.constructed _ _ _) hrun

theorem inheritedNameSession_reachable : Reachable inheritedNameSession := by
  have hrun : ∃ records, (TokenCounter.new noOptions emptyFileSystem sampleTime).trackRequests
      inheritedNameCalls = .ok (records, inheritedNameSession) := ⟨_, rfl⟩
  obtain ⟨records, hrun⟩ := hrun
  exact reachable_trackRequests _ _ _ _ (Reachable.constructed _ _ _) hrun

theorem tiedSession_reachable : Reachable tiedSession := by
  have hrun : ∃ records, (TokenCounter.new noOptions emptyFileSystem sampleTime).trackRequests
      tiedCalls = .ok (records, tiedSession) := ⟨_, rfl⟩
  obtain ⟨records, hrun⟩ := hrun
  exact reachable_trackRequests _ _ _ _ (Reachable.constructed _ _ _) hrun

/-- C6 (counterexample): after requests on `gpt-3.5-turbo`, `constructor` and
`gpt-4` the second record has `NaN` costs, every comparison with it counts as
a tie and the sort moves nothing: `getTopExpensiveRequests(1)` returns the
`gpt-3.5-turbo` record of cost 0.000425 and leaves out the `gpt-4` record of
cost 0.0225, and the result for 3 is not in non-increasing order. -/
theorem getTopExpensiveRequests_with_nan :
    Reachable inheritedNameSession ∧
    inheritedNameSession.sessionStats.requests.map (fun r => (r.model, r.totalCost))
      = [("gpt-3.5-turbo", JsNumber.ofDecimal 0.000425), ("constructor", .nan),
         ("gpt-4", JsNumber.ofDecimal 0.0225)] ∧
    (inheritedNameSession.getTopExpensiveRequests (some 1)).map (fun r => r.model)
      = ["gpt-3.5-turbo"] ∧
    ¬ (JsNumber.ofDecimal 0.0225 ≤ JsNumber.ofDecimal 0.000425) ∧
    (inheritedNameSession.getTopExpensiveRequests (some 3)).map (fun r => r.model)
      = ["gpt-3.5-turbo", "constructor", "gpt-4"] ∧
    ¬ (inheritedNameSession.getTopExpensiveRequests (some 3)).Pairwise
        (fun a b => b.totalCost ≤ a.totalCost) := by
  refine ⟨inheritedNameSession_reachable, ?_, ?_, ?_, ?_, ?_⟩ <;> decide!

/-- C6 (amended): in every reachable state `getTopExpensiveRequests(k)`
returns `min(k, requestCount)` records which, together with the records left
out, are a rearrangement of the session's records, and for `k ≥ requestCount`
all records are returned; an omitted limit is 5. When every record has a
numeric `totalCost`, the result is in non-increasing order of `totalCost` and
every record left out costs at most as much as every record returned. -/
theorem getTopExpensiveRequests_top (self : TokenCounter) (k : ℕ) (hreach : Reachable self) :
    (self.getTopExpensiveRequests (some k)).length = min k self.sessionStats.requestCount ∧
    ((∀ r ∈ self.sessionStats.requests, r.totalCost ≠ .nan) →
      (self.getTopExpensiveRequests (some k)).Pairwise
        (fun a b => b.totalCost ≤ a.totalCost)) ∧
    (∃ rest, (self.getTopExpensiveRequests (some k) ++ rest).Perm self.sessionStats.requests ∧
      ((∀ r ∈ self.sessionStats.requests, r.totalCost ≠ .nan) →
        ∀ a ∈ self.getTopExpensiveRequests (some k), ∀ b ∈ rest,
          b.totalCost ≤ a.totalCost)) ∧
    (self.sessionStats.requestCount ≤ k →
      (self.getTopExpensiveRequests (some k)).Perm self.sessionStats.requests) ∧
    self.getTopExpensiveRequests none = self.getTopExpensiveRequests (some 5) := by
  have hcount := reachable_requestCount self hreach
  have hperm := sortByCompare_perm (fun a b : RequestRecord => b.totalCost.sub a.totalCost)
    self.sessionStats.requests
  have hsorted : (∀ r ∈ self.sessionStats.requests, r.totalCost ≠ .nan) →
      (sortByCompare (fun a b : RequestRecord => b.totalCost.sub a.totalCost)
        self.sessionStats.requests).Pairwise (fun a b => b.totalCost ≤ a.totalCost) := by
    intro hnumeric
    have hnum : ∀ r ∈ sortByCompare (fun a b : RequestRecord => b.totalCost.sub a.totalCost)
        self.sessionStats.requests, r.totalCost ≠ .nan :=
      fun r hr => hnumeric r (hperm.subset hr)
    refine (sorted_requests_of_numeric _ hnumeric).imp_of_mem ?_
    intro a b ha hb h
    exact (le_iff_key a b (hnum a ha) (hnum b hb)).mpr h
  unfold getTopExpensiveRequests
  simp only [Option.getD_some, Option.getD_none]
  refine ⟨?_, ?_, ?_, ?_, trivial⟩
  · rw [List.length_take, hperm.length_eq, hcount]
  · intro hnumeric
    exact (hsorted hnumeric).sublist (List.take_sublist _ _)
  · refine ⟨(sortByCompare (fun a b : RequestRecord => b.totalCost.sub a.totalCost)
      self.sessionStats.requests).drop k, ?_, ?_⟩
    · rw [List.take_append_drop]
      exact hperm
    · intro hnumeric a ha b hb
      have hsplit := hsorted hnumeric
      rw [← List.take_append_drop k (sortByCompare _ self.sessionStats.requests),
        List.pairwise_append] at hsplit
      exact hsplit.2.2 a ha b hb
  · intro hk
    rw [List.take_of_length_le (by rw [hperm.length_eq, ← hcount]; exact hk)]
    exact hperm

/-- C6 (witness): the top 3 of the four requests of the usage example are the
`claude-3-opus`, `gpt-4` and `claude-sonnet-4-5` requests, in that order. -/
theorem getTopExpensiveRequests_top_witness :
    Reachable exampleSession ∧
    (∀ r ∈ exampleSession.sessionStats.requests, r.totalCost ≠ .nan) ∧
    (exampleSession.getTopExpensiveRequests (some 3)).length
      = min 3 exampleSession.sessionStats.requestCount ∧
    (exampleSession.getTopExpensiveRequests (some 3)).Pairwise
      (fun a b => b.totalCost ≤ a.totalCost) ∧
    exampleSession.sessionStats.requestCount = 4 ∧
    (exampleSession.getTopExpensiveRequests (some 3)).map (fun r => (r.model, r.totalCost))
      = [("claude-3-opus", JsNumber.ofDecimal 0.0675), ("gpt-4", JsNumber.ofDecimal 0.0225),
         ("claude-sonnet-4-5", JsNumber.ofDecimal 0.00735)] ∧
    exampleSession.sessionStats.requestCount ≤ 5 ∧
    (exampleSession.getTopExpensiveRequests (some 5)).Perm exampleSession.sessionStats.requests :=
  have hnumeric : ∀ r ∈ exampleSession.sessionStats.requests, r.totalCost ≠ .nan := by decide!
  ⟨exampleSession_reachable, hnumeric,
    (getTopExpensiveRequests_top exampleSession 3 exampleSession_reachable).1,
    (getTopExpensiveRequests_top exampleSession 3 exampleSession_reachable).2.1 hnumeric,
    by decide!, by decide!, by decide!,
    (getTopExpensiveRequests_top exampleSession 5 exampleSession_reachable).2.2.2.1
      (by decide!)⟩

/-- C7: the records of a given cost returned by `getTopExpensiveRequests` are an
initial segment of the session's records of that cost in tracking order, and
the result has `min(limit, number of records)` elements; when all costs are
numeric, exactly as many records of that cost are returned as fit after the
records of greater cost, so ties keep their insertion order and the earlier
tracked ones are the ones kept at the cut-off. -/
theorem getTopExpensiveRequests_stable (self : TokenCounter) (limit : Option ℕ) (cost : ℚ) :
    (self.getTopExpensiveRequests limit).filter (fun r => decide (r.totalCost = .fin cost))
      <+: self.sessionStats.requests.filter (fun r => decide (r.totalCost = .fin cost)) ∧
    (self.getTopExpensiveRequests limit).length
      = min (limit.getD 5) self.sessionStats.requests.length ∧
    ((∀ r ∈ self.sessionStats.requests, r.totalCost ≠ .nan) →
      (self.getTopExpensiveRequests limit).filter (fun r => decide (r.totalCost = .fin cost))
        = (self.sessionStats.requests.filter (fun r => decide (r.totalCost = .fin cost))).take
            (limit.getD 5 - (self.sessionStats.requests.filter
              (fun r => (r.totalCost.sub (.fin cost)).isPositive)).length)) := by
  have hperm := sortByCompare_perm (fun a b : RequestRecord => b.totalCost.sub a.totalCost)
    self.sessionStats.requests
  have hfilter := sorted_requests_filter self.sessionStats.requests cost
  unfold getTopExpensiveRequests
  refine ⟨?_, ?_, ?_⟩
  · rw [← hfilter]
    apply List.IsPrefix.filter
    exact List.take_prefix _ _
  · rw [List.length_take, hperm.length_eq]
  · intro hnumeric
    have hnum : ∀ r ∈ sortByCompare (fun a b : RequestRecord => b.totalCost.sub a.totalCost)
        self.sessionStats.requests, r.totalCost ≠ .nan :=
      fun r hr => hnumeric r (hperm.subset hr)
    have htake := take_filter_of_sorted (fun r : RequestRecord => r.totalCost.writtenOrZero)
      cost _ (sorted_requests_of_numeric _ hnumeric) (limit.getD 5)
    have hkey : ∀ l : List RequestRecord, (∀ r ∈ l, r.totalCost ≠ .nan) →
        l.filter (fun r => decide (r.totalCost.writtenOrZero = cost))
          = l.filter (fun r => decide (r.totalCost = .fin cost)) := by
      intro l hl
      apply List.filter_congr
      intro r hr
      simp only [decide_eq_decide]
      exact (eq_fin_iff_key r cost (hl r hr)).symm
    have hexceeds : ∀ l : List RequestRecord, (∀ r ∈ l, r.totalCost ≠ .nan) →
        l.filter (fun r => decide (cost < r.totalCost.writtenOrZero))
          = l.filter (fun r => (r.totalCost.sub (.fin cost)).isPositive) := by
      intro l hl
      apply List.filter_congr
      intro r hr
      have h := exceeds_iff_key r cost (hl r hr)
      cases hp : (r.totalCost.sub (.fin cost)).isPositive
      · simp only [decide_eq_false_iff_not]
        intro hlt
        rw [h.mpr hlt] at hp
        cases hp
      · simp only [decide_eq_true_eq]
        exact h.mp hp
    rw [hkey _ (fun r hr => hnum r (List.mem_of_mem_take hr)), hkey _ hnum, hexceeds _ hnum,
      hfilter] at htake
    rw [htake]
    congr 2
    exact (hperm.filter _).length_eq

/-- C7 (witness): of three `gpt-4` requests of cost 0.0225 tracked as `first`,
`second` and `third` around a costlier `claude-3-opus` request,
`getTopExpensiveRequests(2)` returns the `opus` request and `first`. -/
theorem getTopExpensiveRequests_stable_witness :
    (∀ r ∈ tiedSession.sessionStats.requests, r.totalCost ≠ .nan) ∧
    tiedSession.sessionStats.requests.map (fun r => (r.description, r.totalCost))
      = [("first", JsNumber.ofDecimal 0.0225), ("second", JsNumber.ofDecimal 0.0225),
         ("opus", JsNumber.ofDecimal 0.0675), ("third", JsNumber.ofDecimal 0.0225)] ∧
    (tiedSession.getTopExpensiveRequests (some 2)).map (fun r => r.description)
      = ["opus", "first"] ∧
    (tiedSession.getTopExpensiveRequests (some 3)).map (fun r => r.description)
      = ["opus", "first", "second"] ∧
    (tiedSession.getTopExpensiveRequests (some 2)).filter
        (fun r => decide (r.totalCost = .fin (roundDouble 0.0225)))
      = (tiedSession.sessionStats.requests.filter
          (fun r => decide (r.totalCost = .fin (roundDouble 0.0225)))).take (2 - 1) := by
  have hnumeric : ∀ r ∈ tiedSession.sessionStats.requests, r.totalCost ≠ .nan := by decide!
  have hformula := (getTopExpensiveRequests_stable tiedSession (some 2)
    (roundDouble 0.0225)).2.2 hnumeric
  have hcount : (tiedSession.sessionStats.requests.filter
      (fun r => (r.totalCost.sub (.fin (roundDouble 0.0225))).isPositive)).length = 1 := by
    decide!
  rw [hcount] at hformula
  exact ⟨hnumeric, by decide!, by decide!, by decide!, hformula⟩

end TokenCounter

/-! ## Totals over the loaded history -/

namespace TokenCounter

theorem addStat_of_summary (rt : Runtime) (a : ℚ) (session : JSON) (key : String)
    (hsession : isSessionSummary session = true) (hkey : key ∈ statKeys) :
    addStat rt (.num a) session key
      = .ok (.num (roundDouble (a + statValue session key))) := by
  cases session with
  | obj fields =>
    unfold isSessionSummary at hsession
    cases hstats : fields.lookup "stats" with
    | none => simp [hstats] at hsession
    | some stats =>
      cases stats with
      | obj statFields =>
        simp only [hstats, List.all_eq_true] at hsession
        have hfield := hsession key hkey
        unfold addStat statValue
        simp only [JSON.getProp, hstats, getPropOpt, bind, Except.bind]
        cases hlookup : statFields.lookup key with
        | none => simp [orZero, jsAdd]
        | some value =>
          cases value with
          | num q =>
            by_cases hq : q = 0
            · simp [orZero, JSON.truthy, jsAdd, hq]
            · simp [orZero, JSON.truthy, jsAdd, hq]
          | null => simp [orZero, JSON.truthy, jsAdd]
          | bool b => simp [hlookup, numberOrMissing] at hfield
          | str t => simp [hlookup, numberOrMissing] at hfield
          | arr items => simp [hlookup, numberOrMissing] at hfield
          | obj more => simp [hlookup, numberOrMissing] at hfield
      | null => simp [hstats] at hsession
      | bool b => simp [hstats] at hsession
      | num q => simp [hstats] at hsession
      | str t => simp [hstats] at hsession
      | arr items => simp [hstats] at hsession
  | null => simp [isSessionSummary] at hsession
  | bool b => simp [isSessionSummary] at hsession
  | num q => simp [isSessionSummary] at hsession
  | str t => simp [isSessionSummary] at hsession
  | arr items => simp [isSessionSummary] at hsession

theorem reduceSessions_of_summaries (rt : Runtime) (sessions : List JSON) :
    ∀ (a b c d e : ℚ) (n : ℕ), (∀ s ∈ sessions, isSessionSummary s = true) →
      reduceSessions rt ⟨.num a, .num b, .num c, .num d, .num e, n⟩ sessions
        = .ok ⟨.num (foldStat a sessions "totalInputTokens"),
               .num (foldStat b sessions "totalOutputTokens"),
               .num (foldStat c sessions "totalTokens"),
               .num (foldStat d sessions "totalCost"),
               .num (foldStat e sessions "requestCount"), n⟩ := by
  induction sessions with
  | nil =>
    intro a b c d e n _
    simp [reduceSessions, foldStat]
  | cons session rest ih =>
    intro a b c d e n hall
    have hsession := hall session (List.mem_cons_self _ _)
    have hrest : ∀ s ∈ rest, isSessionSummary s = true :=
      fun s hs => hall s (List.mem_cons_of_mem _ hs)
    have hstat : ∀ (x : ℚ) (key : String), key ∈ statKeys →
        addStat rt (.num x) session key
          = .ok (.num (roundDouble (x + statValue session key))) :=
      fun x key hkey => addStat_of_summary rt x session key hsession hkey
    unfold reduceSessions addSession
    simp only [bind, Except.bind, pure, Except.pure]
    rw [hstat a "totalInputTokens" (by simp [statKeys]),
      hstat b "totalOutputTokens" (by simp [statKeys]),
      hstat c "totalTokens" (by simp [statKeys]),
      hstat d "totalCost" (by simp [statKeys]),
      hstat e "requestCount" (by simp [statKeys])]
    simp only []
    rw [ih _ _ _ _ _ _ hrest]
    rfl

end TokenCounter

namespace TokenCounter

theorem getTotalStats_of_empty (rt : Runtime) (self : TokenCounter)
    (hhistory : self.history = .arr []) : getTotalStats rt self = .ok none := by
  unfold getTotalStats
  simp [hhistory, JSON.truthy, JSON.getProp, bind, Except.bind, pure, Except.pure]

theorem getTotalStats_of_nonempty (rt : Runtime) (self : TokenCounter) (session : JSON)
    (rest : List JSON) (hhistory : self.history = .arr (session :: rest)) :
    getTotalStats rt self =
      (reduceSessions rt (initialTotal (session :: rest).length) (session :: rest)).map some := by
  have hlength : ¬ ((rest.length : ℚ) + 1 = 0) := by positivity
  unfold getTotalStats
  simp only [hhistory, JSON.truthy, JSON.getProp, bind, Except.bind, pure, Except.pure]
  simp only [List.length_cons, Nat.cast_add, Nat.cast_one]
  cases reduceSessions rt (initialTotal (rest.length + 1)) (session :: rest) <;>
    simp [hlength, Except.map]

theorem getTotalStats_of_summaries (rt : Runtime) (self : TokenCounter) (sessions : List JSON)
    (hhistory : self.history = .arr sessions) (hne : sessions ≠ [])
    (hall : ∀ s ∈ sessions, isSessionSummary s = true) :
    getTotalStats rt self = .ok (some
      { totalInputTokens := .num (sumStat sessions "totalInputTokens")
        totalOutputTokens := .num (sumStat sessions "totalOutputTokens")
        totalTokens := .num (sumStat sessions "totalTokens")
        totalCost := .num (sumStat sessions "totalCost")
        requestCount := .num (sumStat sessions "requestCount")
        sessionCount := sessions.length }) := by
  cases sessions with
  | nil => exact absurd rfl hne
  | cons session rest =>
    rw [getTotalStats_of_nonempty rt self session rest hhistory]
    have hreduce := reduceSessions_of_summaries rt (session :: rest) 0 0 0 0 0
      (session :: rest).length hall
    unfold initialTotal
    rw [hreduce]
    rfl

/-- C8 (counterexample): a loaded history that holds one session summary
without a `stats` property is not empty, yet `getTotalStats` returns no record:
it throws a `TypeError`. -/
theorem getTotalStats_throws_without_stats :
    (TokenCounter.new noOptions missingStatsFileSystem sampleTime).history
      = .arr [.obj [("sessionId", .str "1700000000000"), ("requests", .arr [])]] ∧
    getTotalStats sampleRuntime (TokenCounter.new noOptions missingStatsFileSystem sampleTime)
      = .error .typeError :=
  ⟨rfl, rfl⟩

/-- C8 (amended): for a loaded history that is an array of sessions,
`getTotalStats` returns `null` exactly when the array is empty; when it is
non-empty and each element is a session summary whose statistics are numbers,
`null` or missing, the result holds, for each of the five statistics, the
double sum from 0 and left to right over all sessions, a missing or `null` one
counting as 0, and the number of sessions as `sessionCount`. -/
theorem getTotalStats_sums (rt : Runtime) (self : TokenCounter) (sessions : List JSON)
    (hhistory : self.history = .arr sessions) :
    (getTotalStats rt self = .ok none ↔ sessions = []) ∧
    (sessions ≠ [] → (∀ s ∈ sessions, isSessionSummary s = true) →
      getTotalStats rt self = .ok (some
        { totalInputTokens := .num (sumStat sessions "totalInputTokens")
          totalOutputTokens := .num (sumStat sessions "totalOutputTokens")
          totalTokens := .num (sumStat sessions "totalTokens")
          totalCost := .num (sumStat sessions "totalCost")
          requestCount := .num (sumStat sessions "requestCount")
          sessionCount := sessions.length })) := by
  cases sessions with
  | nil =>
    refine ⟨⟨fun _ => rfl, fun _ => getTotalStats_of_empty rt self hhistory⟩, ?_⟩
    intro h
    exact absurd rfl h
  | cons session rest =>
    constructor
    · rw [getTotalStats_of_nonempty rt self session rest hhistory]
      constructor
      · intro h
        cases hreduce : reduceSessions rt (initialTotal (session :: rest).length)
            (session :: rest) with
        | error e =>
          rw [hreduce] at h
          cases h
        | ok total =>
          rw [hreduce] at h
          cases h
      · intro h
        cases h
    · intro hne hall
      exact getTotalStats_of_summaries rt self (session :: rest) hhistory hne hall

theorem sampleHistory_loaded :
    (TokenCounter.new ⟨some "history.json", none⟩ sampleFileSystem sampleTime).history
      = .arr sampleHistory := rfl

theorem sampleHistory_summaries : ∀ s ∈ sampleHistory, isSessionSummary s = true := by
  intro s hs
  simp only [sampleHistory, List.mem_cons, List.mem_singleton, List.not_mem_nil,
    or_false] at hs
  rcases hs with h | h <;> subst h <;> rfl

theorem decimalHistory_summaries : ∀ s ∈ decimalHistory, isSessionSummary s = true := by
  intro s hs
  simp only [decimalHistory, List.mem_cons, List.mem_singleton, List.not_mem_nil,
    or_false] at hs
  rcases hs with h | h <;> subst h <;> rfl

/-- C8 (witness): on a loaded history of two sessions, the second lacking
`totalOutputTokens` and `totalTokens`, the totals are 250, 300, 450, 0.0235 and
3 requests over 2 sessions; on a history with total costs 0.1 and 0.2 the
total cost is 0.30000000000000004. -/
theorem getTotalStats_sums_witness :
    (TokenCounter.new ⟨some "history.json", none⟩ sampleFileSystem sampleTime).history
      = .arr sampleHistory ∧
    sampleHistory ≠ [] ∧
    (∀ s ∈ sampleHistory, isSessionSummary s = true) ∧
    getTotalStats sampleRuntime
        (TokenCounter.new ⟨some "history.json", none⟩ sampleFileSystem sampleTime)
      = .ok (some
        { totalInputTokens := .num 250
          totalOutputTokens := .num 300
          totalTokens := .num 450
          totalCost := .num (roundDouble 0.0235)
          requestCount := .num 3
          sessionCount := 2 }) ∧
    getTotalStats sampleRuntime (TokenCounter.new noOptions decimalFileSystem sampleTime)
      = .ok (some
        { totalInputTokens := .num 0
          totalOutputTokens := .num 0
          totalTokens := .num 0
          totalCost := .num (roundDouble 0.30000000000000004)
          requestCount := .num 2
          sessionCount := 2 }) ∧
    roundDouble 0.30000000000000004 ≠ roundDouble 0.3 := by
  have hne : sampleHistory ≠ [] := by simp [sampleHistory]
  have hsum := (getTotalStats_sums sampleRuntime
    (TokenCounter.new ⟨some "history.json", none⟩ sampleFileSystem sampleTime)
    sampleHistory sampleHistory_loaded).2 hne sampleHistory_summaries
  have hsum2 := (getTotalStats_sums sampleRuntime
    (TokenCounter.new noOptions decimalFileSystem sampleTime)
    decimalHistory rfl).2 (by simp [decimalHistory]) decimalHistory_summaries
  refine ⟨sampleHistory_loaded, hne, sampleHistory_summaries, ?_, ?_, by decide!⟩
  · rw [hsum]
    have h1 : sumStat sampleHistory "totalInputTokens" = 250 := by decide!
    have h2 : sumStat sampleHistory "totalOutputTokens" = 300 := by decide!
    have h3 : sumStat sampleHistory "totalTokens" = 450 := by decide!
    have h4 : sumStat sampleHistory "totalCost" = roundDouble 0.0235 := by decide!
    have h5 : sumStat sampleHistory "requestCount" = 3 := by decide!
    rw [h1, h2, h3, h4, h5]
    rfl
  · rw [hsum2]
    have h1 : sumStat decimalHistory "totalInputTokens" = 0 := by decide!
    have h2 : sumStat decimalHistory "totalOutputTokens" = 0 := by decide!
    have h3 : sumStat decimalHistory "totalTokens" = 0 := by decide!
    have h4 : sumStat decimalHistory "totalCost" = roundDouble 0.30000000000000004 := by
      decide!
    have h5 : sumStat decimalHistory "requestCount" = 2 := by decide!
    rw [h1, h2, h3, h4, h5]
    rfl

end TokenCounter

/-! ## Saving and reloading the history -/

namespace TokenCounter

theorem saveHistoryBody_of_array (self : TokenCounter) (fs : FileSystem) (now : DateTime)
    (sessions : List JSON)
    (hcontent : fs.content self.historyFile = some (.wellFormed (.arr sessions)))
    (hread : fs.readFails self.historyFile = false)
    (hwrite : fs.writeFails self.historyFile = false) :
    saveHistoryBody self fs now = .ok
      { fs with
        content := fun p =>
          if p = self.historyFile then
            some (.wellFormed (.arr (sessions ++ [sessionSummary self now])))
          else fs.content p } := by
  unfold saveHistoryBody
  rw [hcontent, hread, hwrite]
  rfl

theorem saveHistoryBody_of_absent (self : TokenCounter) (fs : FileSystem) (now : DateTime)
    (hcontent : fs.content self.historyFile = none)
    (hwrite : fs.writeFails self.historyFile = false) :
    saveHistoryBody self fs now = .ok
      { fs with
        content := fun p =>
          if p = self.historyFile then
            some (.wellFormed (.arr ([] ++ [sessionSummary self now])))
          else fs.content p } := by
  unfold saveHistoryBody
  rw [hcontent, hwrite]
  rfl

theorem saveHistoryBody_of_writeFails (self : TokenCounter) (fs : FileSystem) (now : DateTime)
    (hwrite : fs.writeFails self.historyFile = true) :
    ∃ e, saveHistoryBody self fs now = .error e := by
  unfold saveHistoryBody
  rw [hwrite]
  cases fs.content self.historyFile with
  | none => exact ⟨_, rfl⟩
  | some text =>
    cases fs.readFails self.historyFile with
    | true => exact ⟨_, rfl⟩
    | false =>
      cases text with
      | malformed => exact ⟨_, rfl⟩
      | wellFormed v => cases v <;> exact ⟨_, rfl⟩

theorem saveHistoryBody_of_readFails (self : TokenCounter) (fs : FileSystem) (now : DateTime)
    (text : FileText) (hcontent : fs.content self.historyFile = some text)
    (hread : fs.readFails self.historyFile = true) :
    ∃ e, saveHistoryBody self fs now = .error e := by
  unfold saveHistoryBody
  rw [hcontent, hread]
  exact ⟨_, rfl⟩

theorem saveHistoryBody_of_malformed (self : TokenCounter) (fs : FileSystem) (now : DateTime)
    (hcontent : fs.content self.historyFile = some .malformed) :
    ∃ e, saveHistoryBody self fs now = .error e := by
  unfold saveHistoryBody
  rw [hcontent]
  cases fs.readFails self.historyFile <;> exact ⟨_, rfl⟩

theorem saveHistoryBody_of_not_array (self : TokenCounter) (fs : FileSystem) (now : DateTime)
    (v : JSON) (hcontent : fs.content self.historyFile = some (.wellFormed v))
    (hv : ∀ sessions, v ≠ .arr sessions) :
    ∃ e, saveHistoryBody self fs now = .error e := by
  unfold saveHistoryBody
  rw [hcontent]
  cases fs.readFails self.historyFile with
  | true => exact ⟨_, rfl⟩
  | false =>
    cases v with
    | arr sessions => exact absurd rfl (hv sessions)
    | null => exact ⟨_, rfl⟩
    | bool b => exact ⟨_, rfl⟩
    | num q => exact ⟨_, rfl⟩
    | str t => exact ⟨_, rfl⟩
    | obj fields => exact ⟨_, rfl⟩

/-- The `try` block succeeds only by rewriting the whole file. -/
theorem saveHistoryBody_ok_inv (self : TokenCounter) (fs fs' : FileSystem) (now : DateTime)
    (hok : saveHistoryBody self fs now = .ok fs') :
    ∃ sessions,
      (fs.content self.historyFile = some (.wellFormed (.arr sessions)) ∧
          fs.readFails self.historyFile = false ∨
        fs.content self.historyFile = none ∧ sessions = []) ∧
      fs.writeFails self.historyFile = false ∧
      fs' = { fs with
        content := fun p =>
          if p = self.historyFile then
            some (.wellFormed (.arr (sessions ++ [sessionSummary self now])))
          else fs.content p } := by
  cases hwrite : fs.writeFails self.historyFile with
  | true =>
    obtain ⟨e, he⟩ := saveHistoryBody_of_writeFails self fs now hwrite
    rw [he] at hok
    cases hok
  | false =>
    cases hcontent : fs.content self.historyFile with
    | none =>
      rw [saveHistoryBody_of_absent self fs now hcontent hwrite] at hok
      cases hok
      exact ⟨[], Or.inr ⟨rfl, rfl⟩, rfl, rfl⟩
    | some text =>
      cases hread : fs.readFails self.historyFile with
      | true =>
        obtain ⟨e, he⟩ := saveHistoryBody_of_readFails self fs now text hcontent hread
        rw [he] at hok
        cases hok
      | false =>
        cases text with
        | malformed =>
          obtain ⟨e, he⟩ := saveHistoryBody_of_malformed self fs now hcontent
          rw [he] at hok
          cases hok
        | wellFormed v =>
          by_cases hv : ∃ sessions, v = .arr sessions
          · obtain ⟨sessions, rfl⟩ := hv
            rw [saveHistoryBody_of_array self fs now sessions hcontent hread hwrite] at hok
            cases hok
            exact ⟨sessions, Or.inl ⟨rfl, rfl⟩, rfl, rfl⟩
          · obtain ⟨e, he⟩ := saveHistoryBody_of_not_array self fs now v hcontent
              (fun sessions h => hv ⟨sessions, h⟩)
            rw [he] at hok
            cases hok

end TokenCounter

namespace TokenCounter

theorem saveHistory_of_error (self : TokenCounter) (fs : FileSystem) (now : DateTime)
    (h : ∃ e, saveHistoryBody self fs now = .error e) :
    self.saveHistory fs now = (false, self, fs) := by
  obtain ⟨e, he⟩ := h
  unfold saveHistory
  rw [he]

theorem saveHistory_instance (self : TokenCounter) (fs : FileSystem) (now : DateTime) :
    (self.saveHistory fs now).2.1 = self := by
  unfold saveHistory
  cases saveHistoryBody self fs now <;> rfl

theorem saveHistory_true_inv (self : TokenCounter) (fs : FileSystem) (now : DateTime)
    (h : (self.saveHistory fs now).1 = true) :
    ∃ sessions,
      (fs.content self.historyFile = some (.wellFormed (.arr sessions)) ∧
          fs.readFails self.historyFile = false ∨
        fs.content self.historyFile = none ∧ sessions = []) ∧
      fs.writeFails self.historyFile = false ∧
      (self.saveHistory fs now).2.2 = { fs with
        content := fun p =>
          if p = self.historyFile then
            some (.wellFormed (.arr (sessions ++ [sessionSummary self now])))
          else fs.content p } := by
  cases hbody : saveHistoryBody self fs now with
  | error e =>
    rw [saveHistory_of_error self fs now ⟨e, hbody⟩] at h
    cases h
  | ok fs' =>
    obtain ⟨sessions, hfile, hwrite, hfs⟩ := saveHistoryBody_ok_inv self fs fs' now hbody
    refine ⟨sessions, hfile, hwrite, ?_⟩
    unfold saveHistory
    rw [hbody]
    exact hfs

/-- C10: `saveHistory` always hands back the instance unchanged; when reading,
parsing or writing the history file fails, or the file holds JSON that is not
an array, it returns `false` and leaves instance and file system as they were;
it returns `true` only when the file has been rewritten with the previous
array followed by the session summary. -/
theorem saveHistory_failure (self : TokenCounter) (fs : FileSystem) (now : DateTime) :
    (self.saveHistory fs now).2.1 = self ∧
    (((∃ text, fs.content self.historyFile = some text ∧
          fs.readFails self.historyFile = true) ∨
        fs.content self.historyFile = some .malformed ∨
        (∃ v, fs.content self.historyFile = some (.wellFormed v) ∧
          ∀ sessions, v ≠ .arr sessions) ∨
        fs.writeFails self.historyFile = true) →
      self.saveHistory fs now = (false, self, fs)) ∧
    ((self.saveHistory fs now).1 = true →
      ∃ sessions,
        (fs.content self.historyFile = some (.wellFormed (.arr sessions)) ∨
          fs.content self.historyFile = none ∧ sessions = []) ∧
        (self.saveHistory fs now).2.2.content self.historyFile
          = some (.wellFormed (.arr (sessions ++ [sessionSummary self now])))) := by
  refine ⟨saveHistory_instance self fs now, ?_, ?_⟩
  · intro hfail
    apply saveHistory_of_error
    rcases hfail with ⟨text, hcontent, hread⟩ | hmalformed | ⟨v, hcontent, hv⟩ | hwrite
    · exact saveHistoryBody_of_readFails self fs now text hcontent hread
    · exact saveHistoryBody_of_malformed self fs now hmalformed
    · exact saveHistoryBody_of_not_array self fs now v hcontent hv
    · exact saveHistoryBody_of_writeFails self fs now hwrite
  · intro htrue
    obtain ⟨sessions, hfile, -, hfs⟩ := saveHistory_true_inv self fs now htrue
    refine ⟨sessions, ?_, ?_⟩
    · rcases hfile with ⟨h, -⟩ | h
      · exact Or.inl h
      · exact Or.inr h
    · rw [hfs]
      simp

/-- C10 (witness): with a history file that holds an empty JSON object,
`saveHistory` returns `false` and changes neither the instance nor the file
system; on a path without a file it returns `true` and the file then holds
the session summary alone. -/
theorem saveHistory_failure_witness :
    objectFileSystem.content
        (TokenCounter.new noOptions objectFileSystem sampleTime).historyFile
      = some (.wellFormed (.obj [])) ∧
    (TokenCounter.new noOptions objectFileSystem sampleTime).saveHistory objectFileSystem
        sampleTime
      = (false, TokenCounter.new noOptions objectFileSystem sampleTime, objectFileSystem) ∧
    (firstRequestSession.saveHistory emptyFileSystem sampleTime).1 = true ∧
    ∃ sessions,
      (emptyFileSystem.content firstRequestSession.historyFile
          = some (.wellFormed (.arr sessions)) ∨
        emptyFileSystem.content firstRequestSession.historyFile = none ∧ sessions = []) ∧
      (firstRequestSession.saveHistory emptyFileSystem sampleTime).2.2.content
          firstRequestSession.historyFile
        = some (.wellFormed (.arr (sessions ++ [sessionSummary firstRequestSession sampleTime]))) :=
  ⟨rfl, (saveHistory_failure (TokenCounter.new noOptions objectFileSystem sampleTime)
    objectFileSystem sampleTime).2.1
      (Or.inr (Or.inr (Or.inl ⟨.obj [], rfl, fun _ h => JSON.noConfusion h⟩))),
    rfl, (saveHistory_failure firstRequestSession emptyFileSystem sampleTime).2.2 rfl⟩

end TokenCounter

namespace TokenCounter

theorem reachable_historyFile (self : TokenCounter) (h : Reachable self) :
    self.historyFile ≠ "" := by
  induction h with
  | constructed options fs now =>
    unfold TokenCounter.new
    simp only
    cases options.historyFile with
    | none => decide
    | some p =>
      by_cases hp : p = ""
      · simp only [hp, if_true]
        decide
      · simp only [hp, if_false]
        exact hp
  | tracked now usage _ hok ih =>
    obtain ⟨-, -, hfile, -⟩ := trackRequest_ok_iff _ _ _ _ _ hok
    rw [hfile]
    exact ih

theorem new_historyFile (path : String) (pricing : Option PricingTable) (fs : FileSystem)
    (now : DateTime) (hpath : path ≠ "") :
    (TokenCounter.new ⟨some path, pricing⟩ fs now).historyFile = path := by
  unfold TokenCounter.new
  simp only [hpath, if_false]

theorem new_history (options : Options) (fs : FileSystem) (now : DateTime) :
    (TokenCounter.new options fs now).history
      = loadHistory fs (TokenCounter.new options fs now).historyFile := rfl

theorem loadHistory_of_array (fs : FileSystem) (path : String) (sessions : List JSON)
    (hcontent : fs.content path = some (.wellFormed (.arr sessions)))
    (hread : fs.readFails path = false) :
    loadHistory fs path = .arr sessions := by
  unfold loadHistory
  rw [hcontent, hread]
  rfl

theorem isSessionSummary_sessionSummary (self : TokenCounter) (now : DateTime) :
    isSessionSummary (sessionSummary self now) = true := by
  unfold sessionSummary
  cases round6 self.sessionStats.totalCost <;> rfl

theorem statValue_sessionSummary (self : TokenCounter) (now : DateTime) :
    statValue (sessionSummary self now) "totalInputTokens"
      = self.sessionStats.totalInputTokens ∧
    statValue (sessionSummary self now) "totalOutputTokens"
      = self.sessionStats.totalOutputTokens ∧
    statValue (sessionSummary self now) "totalTokens"
      = self.sessionStats.totalInputTokens + self.sessionStats.totalOutputTokens ∧
    statValue (sessionSummary self now) "totalCost"
      = (round6 self.sessionStats.totalCost).writtenOrZero ∧
    statValue (sessionSummary self now) "requestCount" = self.sessionStats.requestCount := by
  refine ⟨rfl, rfl, rfl, ?_, rfl⟩
  unfold sessionSummary
  cases round6 self.sessionStats.totalCost <;> rfl

theorem sumStat_append (sessions : List JSON) (session : JSON) (key : String) :
    sumStat (sessions ++ [session]) key
      = roundDouble (sumStat sessions key + statValue session key) := by
  simp [sumStat, foldStat]

theorem addStat_sessionCount (rt : Runtime) (acc total : TotalStats) (session : JSON)
    (h : addSession rt acc session = .ok total) : total.sessionCount = acc.sessionCount := by
  unfold addSession at h
  simp only [bind, Except.bind, pure, Except.pure] at h
  cases h1 : addStat rt acc.totalInputTokens session "totalInputTokens" with
  | error e => rw [h1] at h; cases h
  | ok v1 =>
    rw [h1] at h
    cases h2 : addStat rt acc.totalOutputTokens session "totalOutputTokens" with
    | error e => rw [h2] at h; cases h
    | ok v2 =>
      rw [h2] at h
      cases h3 : addStat rt acc.totalTokens session "totalTokens" with
      | error e => rw [h3] at h; cases h
      | ok v3 =>
        rw [h3] at h
        cases h4 : addStat rt acc.totalCost session "totalCost" with
        | error e => rw [h4] at h; cases h
        | ok v4 =>
          rw [h4] at h
          cases h5 : addStat rt acc.requestCount session "requestCount" with
          | error e => rw [h5] at h; cases h
          | ok v5 =>
            rw [h5] at h
            cases h
            rfl

theorem reduceSessions_sessionCount (rt : Runtime) (sessions : List JSON) :
    ∀ acc total : TotalStats, reduceSessions rt acc sessions = .ok total →
      total.sessionCount = acc.sessionCount := by
  induction sessions with
  | nil =>
    intro acc total h
    simp only [reduceSessions, Except.ok.injEq] at h
    rw [← h]
  | cons session rest ih =>
    intro acc total h
    unfold reduceSessions at h
    simp only [bind, Except.bind] at h
    cases hstep : addSession rt acc session with
    | error e => rw [hstep] at h; cases h
    | ok next =>
      rw [hstep] at h
      rw [ih next total h, addStat_sessionCount rt acc next session hstep]

theorem getTotalStats_sessionCount (rt : Runtime) (self : TokenCounter) (sessions : List JSON)
    (total : TotalStats) (hhistory : self.history = .arr sessions)
    (h : getTotalStats rt self = .ok (some total)) : total.sessionCount = sessions.length := by
  cases sessions with
  | nil =>
    rw [getTotalStats_of_empty rt self hhistory] at h
    cases h
  | cons session rest =>
    rw [getTotalStats_of_nonempty rt self session rest hhistory] at h
    cases hreduce : reduceSessions rt (initialTotal (session :: rest).length)
        (session :: rest) with
    | error e => rw [hreduce] at h; cases h
    | ok reduced =>
      rw [hreduce] at h
      simp only [Except.map, Except.ok.injEq, Option.some.injEq] at h
      rw [← h, reduceSessions_sessionCount rt _ _ _ hreduce]
      rfl

theorem saveHistory_of_writable (self : TokenCounter) (fs : FileSystem) (now : DateTime)
    (sessions : List JSON)
    (hfile : fs.content self.historyFile = some (.wellFormed (.arr sessions)) ∧
        fs.readFails self.historyFile = false ∨
      fs.content self.historyFile = none ∧ sessions = [])
    (hwrite : fs.writeFails self.historyFile = false) :
    self.saveHistory fs now = (true, self,
      { fs with
        content := fun p =>
          if p = self.historyFile then
            some (.wellFormed (.arr (sessions ++ [sessionSummary self now])))
          else fs.content p }) := by
  unfold saveHistory
  rcases hfile with ⟨hcontent, hread⟩ | ⟨hcontent, hnil⟩
  · rw [saveHistoryBody_of_array self fs now sessions hcontent hread hwrite]
  · rw [saveHistoryBody_of_absent self fs now hcontent hwrite, hnil]

theorem saveHistory_reload (self : TokenCounter) (fs : FileSystem) (now later : DateTime)
    (sessions : List JSON) (pricing : Option PricingTable)
    (hreach : Reachable self)
    (hfile : fs.content self.historyFile = some (.wellFormed (.arr sessions)) ∨
      fs.content self.historyFile = none ∧ sessions = [])
    (hread : fs.readFails self.historyFile = false)
    (hwrite : fs.writeFails self.historyFile = false) :
    (self.saveHistory fs now).1 = true ∧
    (TokenCounter.new ⟨some self.historyFile, pricing⟩ (self.saveHistory fs now).2.2
      later).history = .arr (sessions ++ [sessionSummary self now]) := by
  have hsave := saveHistory_of_writable self fs now sessions
    (by
      rcases hfile with h | h
      · exact Or.inl ⟨h, hread⟩
      · exact Or.inr h) hwrite
  have hpath := new_historyFile self.historyFile pricing (self.saveHistory fs now).2.2 later
    (reachable_historyFile self hreach)
  refine ⟨by rw [hsave], ?_⟩
  rw [new_history, hpath]
  apply loadHistory_of_array
  · rw [hsave]
    simp
  · rw [hsave]
    exact hread

end TokenCounter


namespace TokenCounter

theorem getTotalStats_ne_null (rt : Runtime) (self : TokenCounter) (sessions : List JSON)
    (hhistory : self.history = .arr sessions) (hne : sessions ≠ []) :
    getTotalStats rt self ≠ .ok none := by
  cases sessions with
  | nil => exact absurd rfl hne
  | cons session rest =>
    rw [getTotalStats_of_nonempty rt self session rest hhistory]
    cases reduceSessions rt (initialTotal (session :: rest).length) (session :: rest) with
    | error e => intro h; cases h
    | ok total => intro h; cases h

theorem saveHistory_true_iff (self : TokenCounter) (fs : FileSystem) (now : DateTime)
    (sessions : List JSON)
    (hfile : fs.content self.historyFile = some (.wellFormed (.arr sessions)) ∨
      fs.content self.historyFile = none ∧ sessions = [])
    (hread : fs.readFails self.historyFile = false) :
    (self.saveHistory fs now).1 = true ↔ fs.writeFails self.historyFile = false := by
  constructor
  · intro h
    obtain ⟨_, -, hwrite, -⟩ := saveHistory_true_inv self fs now h
    exact hwrite
  · intro hwrite
    rw [saveHistory_of_writable self fs now sessions
      (by
        rcases hfile with h | h
        · exact Or.inl ⟨h, hread⟩
        · exact Or.inr h) hwrite]

theorem sessionSummary_eq (self : TokenCounter) (now : DateTime) :
    sessionSummary self now
      = .obj [ ("sessionId", .str self.sessionId),
               ("sessionStart", .str self.sessionStart.isoString),
               ("sessionEnd", .str now.isoString),
               ("stats", .obj
                 [ ("totalInputTokens", .num self.sessionStats.totalInputTokens),
                   ("totalOutputTokens", .num self.sessionStats.totalOutputTokens),
                   ("totalTokens", .num (self.sessionStats.totalInputTokens
                     + self.sessionStats.totalOutputTokens)),
                   ("totalCost", .ofNumber (round6 self.sessionStats.totalCost)),
                   ("requestCount", .num self.sessionStats.requestCount) ]),
               ("requests",
                 .arr (self.sessionStats.requests.map RequestRecord.toJSON)) ] := rfl

/-- C9: let the file at a reachable instance's path hold the array `H` (or be
absent, `H = []`) and be readable. Then `saveHistory` returns `true` exactly
when the write does not fail, and when it returns `true`, a new instance built
on the same path loads `H` followed by one summary holding the session's
records in tracking order and its statistics: the two token totals, their sum,
the request count and `totalCost`, the double running total rounded to 6
decimals by `toFixed` (`null` if it is `NaN`). Its `getTotalStats` does not
return `null`, any record it returns counts `|H| + 1` sessions, and for an `H`
of session summaries it returns the record that adds the saved session to the
double sums over `H`. -/
theorem saveHistory_roundtrip (rt : Runtime) (self : TokenCounter) (fs : FileSystem)
    (now later : DateTime) (H : List JSON) (pricing : Option PricingTable)
    (hreach : Reachable self)
    (hfile : fs.content self.historyFile = some (.wellFormed (.arr H)) ∨
      fs.content self.historyFile = none ∧ H = [])
    (hread : fs.readFails self.historyFile = false) :
    ((self.saveHistory fs now).1 = true ↔ fs.writeFails self.historyFile = false) ∧
    ((self.saveHistory fs now).1 = true →
      (TokenCounter.new ⟨some self.historyFile, pricing⟩ (self.saveHistory fs now).2.2
          later).history
        = .arr (H ++
            [.obj [ ("sessionId", .str self.sessionId),
                    ("sessionStart", .str self.sessionStart.isoString),
                    ("sessionEnd", .str now.isoString),
                    ("stats", .obj
                      [ ("totalInputTokens", .num self.sessionStats.totalInputTokens),
                        ("totalOutputTokens", .num self.sessionStats.totalOutputTokens),
                        ("totalTokens", .num (self.sessionStats.totalInputTokens
                          + self.sessionStats.totalOutputTokens)),
                        ("totalCost", .ofNumber (round6 self.sessionStats.totalCost)),
                        ("requestCount", .num self.sessionStats.requestCount) ]),
                    ("requests",
                      .arr (self.sessionStats.requests.map RequestRecord.toJSON)) ]]) ∧
      getTotalStats rt (TokenCounter.new ⟨some self.historyFile, pricing⟩
          (self.saveHistory fs now).2.2 later) ≠ .ok none ∧
      (∀ total, getTotalStats rt (TokenCounter.new ⟨some self.historyFile, pricing⟩
          (self.saveHistory fs now).2.2 later) = .ok (some total) →
        total.sessionCount = H.length + 1) ∧
      ((∀ s ∈ H, isSessionSummary s = true) →
        getTotalStats rt (TokenCounter.new ⟨some self.historyFile, pricing⟩
            (self.saveHistory fs now).2.2 later)
          = .ok (some
            { totalInputTokens := .num (roundDouble
                (sumStat H "totalInputTokens" + self.sessionStats.totalInputTokens))
              totalOutputTokens := .num (roundDouble
                (sumStat H "totalOutputTokens" + self.sessionStats.totalOutputTokens))
              totalTokens := .num (roundDouble
                (sumStat H "totalTokens" + (self.sessionStats.totalInputTokens
                  + self.sessionStats.totalOutputTokens)))
              totalCost := .num (roundDouble
                (sumStat H "totalCost"
                  + (round6 self.sessionStats.totalCost).writtenOrZero))
              requestCount := .num (roundDouble
                (sumStat H "requestCount" + self.sessionStats.requestCount))
              sessionCount := H.length + 1 }))) := by
  have hiff := saveHistory_true_iff self fs now H hfile hread
  refine ⟨hiff, ?_⟩
  intro hsaved
  have hload := (saveHistory_reload self fs now later H pricing hreach hfile hread
    (hiff.mp hsaved)).2
  have hne : H ++ [sessionSummary self now] ≠ [] := by simp
  refine ⟨hload, getTotalStats_ne_null rt _ _ hload hne, ?_, ?_⟩
  · intro total htotal
    rw [getTotalStats_sessionCount rt _ _ total hload htotal]
    simp
  · intro hall
    have hall' : ∀ s ∈ H ++ [sessionSummary self now], isSessionSummary s = true := by
      intro s hs
      rcases List.mem_append.mp hs with h | h
      · exact hall s h
      · rw [List.mem_singleton.mp h]
        exact isSessionSummary_sessionSummary self now
    obtain ⟨h1, h2, h3, h4, h5⟩ := statValue_sessionSummary self now
    rw [getTotalStats_of_summaries rt _ _ hload hne hall']
    simp only [sumStat_append, List.length_append, List.length_singleton, h1, h2, h3, h4, h5]

end TokenCounter

namespace TokenCounter

theorem firstRequestSession_reachable : Reachable firstRequestSession := by
  have hrun : ∃ records, (TokenCounter.new noOptions emptyFileSystem sampleTime).trackRequests
      [(sampleTime, ⟨150, 300, some "gpt-4", some "web application code"⟩)]
        = .ok (records, firstRequestSession) := ⟨_, rfl⟩
  obtain ⟨records, hrun⟩ := hrun
  exact reachable_trackRequests _ _ _ _ (Reachable.constructed _ _ _) hrun

theorem laterSession_reachable : Reachable laterSession := by
  have hrun : ∃ records,
      (TokenCounter.new ⟨some "history.json", none⟩ sampleFileSystem sampleTime).trackRequests
        [(sampleTime, ⟨150, 300, some "gpt-4", some "web application code"⟩)]
        = .ok (records, laterSession) := ⟨_, rfl⟩
  obtain ⟨records, hrun⟩ := hrun
  exact reachable_trackRequests _ _ _ _ (Reachable.constructed _ _ _) hrun

theorem tinySession_reachable : Reachable tinySession := by
  have hrun : ∃ records, (TokenCounter.new noOptions emptyFileSystem sampleTime).trackRequests
      [(sampleTime, ⟨1, 0, some "gpt-3.5-turbo", none⟩)]
        = .ok (records, tinySession) := ⟨_, rfl⟩
  obtain ⟨records, hrun⟩ := hrun
  exact reachable_trackRequests _ _ _ _ (Reachable.constructed _ _ _) hrun

theorem sampleHistory_sums :
    sumStat sampleHistory "totalInputTokens" = 250 ∧
    sumStat sampleHistory "totalOutputTokens" = 300 ∧
    sumStat sampleHistory "totalTokens" = 450 ∧
    sumStat sampleHistory "totalCost" = roundDouble 0.0235 ∧
    sumStat sampleHistory "requestCount" = 3 := by
  decide!

theorem session_statistics :
    firstRequestSession.sessionStats.totalInputTokens = 150 ∧
    firstRequestSession.sessionStats.totalOutputTokens = 300 ∧
    firstRequestSession.sessionStats.totalCost = JsNumber.ofDecimal 0.0225 ∧
    firstRequestSession.sessionStats.requestCount = 1 ∧
    laterSession.sessionStats.totalInputTokens = 150 ∧
    laterSession.sessionStats.totalOutputTokens = 300 ∧
    laterSession.sessionStats.totalCost = JsNumber.ofDecimal 0.0225 ∧
    laterSession.sessionStats.requestCount = 1 ∧
    tinySession.sessionStats.totalInputTokens = 1 ∧
    tinySession.sessionStats.totalOutputTokens = 0 ∧
    tinySession.sessionStats.totalCost = JsNumber.ofDecimal 0.0000005 ∧
    tinySession.sessionStats.requestCount = 1 := by
  decide!

/-- C9 (witness): on a path with no file, one request of 150 input and 300
output tokens on `gpt-4`, then `saveHistory` and a reload, give total
statistics with 1 session, 1 request and a total cost of 0.0225. On
`history.json`, which already holds two sessions, the same request and a save
succeed and give 3 sessions, 4 requests and the double sum of the three costs.
After one request of 1 input token on `gpt-3.5-turbo` the running total is the
double of 0.0000005, which lies below it, and the total written and reloaded
is 0. -/
theorem saveHistory_roundtrip_witness :
    (Reachable firstRequestSession ∧
      emptyFileSystem.content firstRequestSession.historyFile = none ∧
      (firstRequestSession.saveHistory emptyFileSystem sampleTime).1 = true ∧
      getTotalStats sampleRuntime
          (TokenCounter.new ⟨some firstRequestSession.historyFile, none⟩
            (firstRequestSession.saveHistory emptyFileSystem sampleTime).2.2 sampleTime)
        = .ok (some
          { totalInputTokens := .num 150
            totalOutputTokens := .num 300
            totalTokens := .num 450
            totalCost := .num (roundDouble 0.0225)
            requestCount := .num 1
            sessionCount := 1 })) ∧
    (Reachable laterSession ∧
      sampleFileSystem.content laterSession.historyFile
        = some (.wellFormed (.arr sampleHistory)) ∧
      sampleHistory.length = 2 ∧
      (laterSession.saveHistory sampleFileSystem sampleTime).1 = true ∧
      getTotalStats sampleRuntime
          (TokenCounter.new ⟨some laterSession.historyFile, none⟩
            (laterSession.saveHistory sampleFileSystem sampleTime).2.2 sampleTime)
        = .ok (some
          { totalInputTokens := .num 400
            totalOutputTokens := .num 600
            totalTokens := .num 900
            totalCost := .num (roundDouble 0.046)
            requestCount := .num 4
            sessionCount := 3 })) ∧
    (Reachable tinySession ∧
      tinySession.sessionStats.totalCost = JsNumber.ofDecimal 0.0000005 ∧
      roundDouble 0.0000005 < 0.0000005 ∧
      (tinySession.saveHistory emptyFileSystem sampleTime).1 = true ∧
      getTotalStats sampleRuntime
          (TokenCounter.new ⟨some tinySession.historyFile, none⟩
            (tinySession.saveHistory emptyFileSystem sampleTime).2.2 sampleTime)
        = .ok (some
          { totalInputTokens := .num 1
            totalOutputTokens := .num 0
            totalTokens := .num 1
            totalCost := .num 0
            requestCount := .num 1
            sessionCount := 1 })) := by
  obtain ⟨f1, f2, f3, f4, l1, l2, l3, l4, t1, t2, t3, t4⟩ := session_statistics
  obtain ⟨s1, s2, s3, s4, s5⟩ := sampleHistory_sums
  have hfirst := saveHistory_roundtrip sampleRuntime firstRequestSession emptyFileSystem
    sampleTime sampleTime [] none firstRequestSession_reachable (Or.inr ⟨rfl, rfl⟩) rfl
  have hlater := saveHistory_roundtrip sampleRuntime laterSession sampleFileSystem
    sampleTime sampleTime sampleHistory none laterSession_reachable (Or.inl rfl) rfl
  have htiny := saveHistory_roundtrip sampleRuntime tinySession emptyFileSystem
    sampleTime sampleTime [] none tinySession_reachable (Or.inr ⟨rfl, rfl⟩) rfl
  have hfirstSaved := hfirst.1.mpr rfl
  have hlaterSaved := hlater.1.mpr rfl
  have htinySaved := htiny.1.mpr rfl
  refine ⟨⟨firstRequestSession_reachable, rfl, hfirstSaved, ?_⟩,
    ⟨laterSession_reachable, rfl, rfl, hlaterSaved, ?_⟩,
    ⟨tinySession_reachable, t3, by decide!, htinySaved, ?_⟩⟩
  · rw [(hfirst.2 hfirstSaved).2.2.2 (by simp), f1, f2, f3, f4]
    have h : (sumStat [] "totalInputTokens" = 0 ∧ sumStat [] "totalOutputTokens" = 0 ∧
        sumStat [] "totalTokens" = 0 ∧ sumStat [] "totalCost" = 0 ∧
        sumStat [] "requestCount" = 0) ∧
        roundDouble (0 + 150) = 150 ∧ roundDouble (0 + 300) = 300 ∧
        roundDouble (0 + (150 + 300)) = 450 ∧
        roundDouble (0 + (round6 (JsNumber.ofDecimal 0.0225)).writtenOrZero)
          = roundDouble 0.0225 ∧
        roundDouble (0 + ((1 : ℕ) : ℚ)) = 1 := by decide!
    obtain ⟨⟨z1, z2, z3, z4, z5⟩, e1, e2, e3, e4, e5⟩ := h
    rw [z1, z2, z3, z4, z5, e1, e2, e3, e4, e5]
    rfl
  · rw [(hlater.2 hlaterSaved).2.2.2 (by decide), l1, l2, l3, l4, s1, s2, s3, s4, s5]
    have h : roundDouble (250 + 150) = 400 ∧ roundDouble (300 + 300) = 600 ∧
        roundDouble (450 + (150 + 300)) = 900 ∧
        roundDouble (roundDouble 0.0235 + (round6 (JsNumber.ofDecimal 0.0225)).writtenOrZero)
          = roundDouble 0.046 ∧
        roundDouble (3 + ((1 : ℕ) : ℚ)) = 4 := by decide!
    obtain ⟨e1, e2, e3, e4, e5⟩ := h
    rw [e1, e2, e3, e4, e5]
    rfl
  · rw [(htiny.2 htinySaved).2.2.2 (by simp), t1, t2, t3, t4]
    have h : (sumStat [] "totalInputTokens" = 0 ∧ sumStat [] "totalOutputTokens" = 0 ∧
        sumStat [] "totalTokens" = 0 ∧ sumStat [] "totalCost" = 0 ∧
        sumStat [] "requestCount" = 0) ∧
        roundDouble (0 + 1) = 1 ∧ roundDouble (0 + 0) = 0 ∧
        roundDouble (0 + (1 + 0)) = 1 ∧
        roundDouble (0 + (round6 (JsNumber.ofDecimal 0.0000005)).writtenOrZero) = 0 ∧
        roundDouble (0 + ((1 : ℕ) : ℚ)) = 1 := by
      decide!
    obtain ⟨⟨z1, z2, z3, z4, z5⟩, e1, e2, e3, e4, e5⟩ := h
    rw [z1, z2, z3, z4, z5, e1, e2, e3, e4, e5]
    rfl

end TokenCounter

/-! ## Loading a history of any content -/

namespace TokenCounter

theorem loadHistory_of_absent (fs : FileSystem) (path : String)
    (hcontent : fs.content path = none) : loadHistory fs path = .arr [] := by
  unfold loadHistory
  rw [hcontent]

theorem loadHistory_of_readFails (fs : FileSystem) (path : String)
    (hread : fs.readFails path = true) : loadHistory fs path = .arr [] := by
  unfold loadHistory
  rw [hread]
  cases fs.content path <;> rfl

theorem loadHistory_of_malformed (fs : FileSystem) (path : String)
    (hcontent : fs.content path = some .malformed) : loadHistory fs path = .arr [] := by
  unfold loadHistory
  rw [hcontent]
  cases fs.readFails path <;> rfl

theorem getTotalStats_ok_of_summaries (rt : Runtime) (self : TokenCounter)
    (sessions : List JSON) (hhistory : self.history = .arr sessions)
    (hall : ∀ s ∈ sessions, isSessionSummary s = true) :
    ∃ result, getTotalStats rt self = .ok result := by
  by_cases hne : sessions = []
  · subst hne
    exact ⟨none, getTotalStats_of_empty rt self hhistory⟩
  · exact ⟨_, getTotalStats_of_summaries rt self sessions hhistory hne hall⟩

/-- C11 (counterexample): a history file that holds an empty JSON object, an
array whose one element has no `stats`, or the number 5 is loaded as it is,
and the following `getTotalStats` throws a `TypeError`. -/
theorem getTotalStats_throws_on_unexpected_shape :
    (TokenCounter.new noOptions objectFileSystem sampleTime).history = .obj [] ∧
    getTotalStats sampleRuntime (TokenCounter.new noOptions objectFileSystem sampleTime)
      = .error .typeError ∧
    (TokenCounter.new noOptions statlessFileSystem sampleTime).history = .arr [.obj []] ∧
    getTotalStats sampleRuntime (TokenCounter.new noOptions statlessFileSystem sampleTime)
      = .error .typeError ∧
    (TokenCounter.new noOptions numberFileSystem sampleTime).history = .num 5 ∧
    getTotalStats sampleRuntime (TokenCounter.new noOptions numberFileSystem sampleTime)
      = .error .typeError :=
  ⟨rfl, rfl, rfl, rfl, rfl, rfl⟩

/-- C11 (amended): the constructor returns an instance for every file system.
When the history file is missing, cannot be read or is not valid JSON, the
loaded history is the empty array and `getTotalStats` returns `null`; when it
holds an array of session summaries, that array is loaded and `getTotalStats`
returns without throwing. -/
theorem getTotalStats_after_load (rt : Runtime) (options : Options) (fs : FileSystem)
    (now : DateTime) :
    ((fs.content (TokenCounter.new options fs now).historyFile = none ∨
        fs.readFails (TokenCounter.new options fs now).historyFile = true ∨
        fs.content (TokenCounter.new options fs now).historyFile = some .malformed) →
      (TokenCounter.new options fs now).history = .arr [] ∧
      getTotalStats rt (TokenCounter.new options fs now) = .ok none) ∧
    (∀ sessions,
      fs.content (TokenCounter.new options fs now).historyFile
        = some (.wellFormed (.arr sessions)) →
      fs.readFails (TokenCounter.new options fs now).historyFile = false →
      (∀ s ∈ sessions, isSessionSummary s = true) →
      (TokenCounter.new options fs now).history = .arr sessions ∧
      ∃ result, getTotalStats rt (TokenCounter.new options fs now) = .ok result) := by
  constructor
  · intro hfail
    have hhistory : (TokenCounter.new options fs now).history = .arr [] := by
      rw [new_history]
      rcases hfail with h | h | h
      · exact loadHistory_of_absent fs _ h
      · exact loadHistory_of_readFails fs _ h
      · exact loadHistory_of_malformed fs _ h
    exact ⟨hhistory, getTotalStats_of_empty rt _ hhistory⟩
  · intro sessions hcontent hread hall
    have hhistory : (TokenCounter.new options fs now).history = .arr sessions := by
      rw [new_history]
      exact loadHistory_of_array fs _ sessions hcontent hread
    exact ⟨hhistory, getTotalStats_ok_of_summaries rt _ sessions hhistory hall⟩

/-- C11 (witness): an empty history file gives an empty history and `null`; the
file holding the two sample sessions gives a result. -/
theorem getTotalStats_after_load_witness :
    emptyTextFileSystem.content
        (TokenCounter.new noOptions emptyTextFileSystem sampleTime).historyFile
      = some .malformed ∧
    (TokenCounter.new noOptions emptyTextFileSystem sampleTime).history = .arr [] ∧
    getTotalStats sampleRuntime (TokenCounter.new noOptions emptyTextFileSystem sampleTime)
      = .ok none ∧
    (TokenCounter.new ⟨some "history.json", none⟩ sampleFileSystem sampleTime).history
      = .arr sampleHistory ∧
    ∃ result, getTotalStats sampleRuntime
      (TokenCounter.new ⟨some "history.json", none⟩ sampleFileSystem sampleTime) = .ok result := by
  have hfail := (getTotalStats_after_load sampleRuntime noOptions emptyTextFileSystem
    sampleTime).1 (Or.inr (Or.inr rfl))
  have hall : ∀ s ∈ sampleHistory, isSessionSummary s = true := by
    intro s hs
    simp only [sampleHistory, List.mem_cons, List.mem_singleton, List.not_mem_nil,
      or_false] at hs
    rcases hs with h | h <;> subst h <;> rfl
  have hok := (getTotalStats_after_load sampleRuntime ⟨some "history.json", none⟩
    sampleFileSystem sampleTime).2 sampleHistory rfl rfl hall
  exact ⟨rfl, hfail.1, hfail.2, hok.1, hok.2⟩

end TokenCounter

/-! ## Calls after construction -/

namespace TokenCounter

theorem saveHistory_history (self : TokenCounter) (fs : FileSystem) (now : DateTime) :
    (self.saveHistory fs now).2.1.history = self.history := by
  rw [saveHistory_instance]

theorem step_instance (state : TokenCounter × FileSystem) (call : Call) :
    (step state call).1 = state.1 ∨
    ∃ now usage record, state.1.trackRequest now usage = .ok (record, (step state call).1) := by
  cases call with
  | trackRequest now usage =>
    cases hstep : state.1.trackRequest now usage with
    | error e =>
      left
      simp only [step, hstep]
    | ok out =>
      obtain ⟨record, next⟩ := out
      right
      refine ⟨now, usage, record, ?_⟩
      simp only [step, hstep]
  | getTopExpensiveRequests limit => exact Or.inl rfl
  | getTotalStats => exact Or.inl rfl
  | saveHistory now => exact Or.inl (saveHistory_instance state.1 state.2 now)

theorem step_history (state : TokenCounter × FileSystem) (call : Call) :
    (step state call).1.history = state.1.history := by
  rcases step_instance state call with h | ⟨now, usage, record, h⟩
  · rw [h]
  · exact (trackRequest_ok_iff _ _ _ _ _ h).2.1

theorem run_history (calls : List Call) :
    ∀ state : TokenCounter × FileSystem, (run state calls).1.history = state.1.history := by
  induction calls with
  | nil => intro state; rfl
  | cons call rest ih =>
    intro state
    unfold run
    rw [ih, step_history]

theorem getTotalStats_congr (rt : Runtime) (a b : TokenCounter) (h : a.history = b.history) :
    getTotalStats rt a = getTotalStats rt b := by
  unfold getTotalStats
  rw [h]

/-- C12: after any sequence of `trackRequest`, `getTopExpensiveRequests`,
`getTotalStats` and `saveHistory` calls, on any file system, `getTotalStats`
returns what it returned right after construction; the same holds for the
statistics that `endSession` displays after saving, so the current session is
never part of them. -/
theorem getTotalStats_fixed_at_construction (rt : Runtime) (options : Options)
    (fs fs' : FileSystem) (now later : DateTime) (calls : List Call) :
    (run (TokenCounter.new options fs now, fs') calls).1.history
      = (TokenCounter.new options fs now).history ∧
    getTotalStats rt (run (TokenCounter.new options fs now, fs') calls).1
      = getTotalStats rt (TokenCounter.new options fs now) ∧
    (endSessionStats rt (run (TokenCounter.new options fs now, fs') calls).1
        (run (TokenCounter.new options fs now, fs') calls).2 later).1
      = getTotalStats rt (TokenCounter.new options fs now) := by
  have hrun := run_history calls (TokenCounter.new options fs now, fs')
  refine ⟨hrun, getTotalStats_congr rt _ _ hrun, ?_⟩
  unfold endSessionStats
  exact getTotalStats_congr rt _ _ ((saveHistory_history _ _ later).trans hrun)

end TokenCounter

/-! ## The session invariant -/

namespace TokenCounter

theorem step_reachable (state : TokenCounter × FileSystem) (call : Call)
    (h : Reachable state.1) : Reachable (step state call).1 := by
  rcases step_instance state call with heq | ⟨now, usage, record, hok⟩
  · rw [heq]
    exact h
  · exact Reachable.tracked now usage h hok

theorem run_reachable (calls : List Call) :
    ∀ state : TokenCounter × FileSystem, Reachable state.1 → Reachable (run state calls).1 := by
  induction calls with
  | nil => intro state h; exact h
  | cons call rest ih =>
    intro state h
    unfold run
    exact ih _ (step_reachable state call h)

theorem reachable_token_sums (self : TokenCounter) (h : Reachable self) :
    self.sessionStats.totalInputTokens
      = (self.sessionStats.requests.map (fun r => r.inputTokens)).sum ∧
    self.sessionStats.totalOutputTokens
      = (self.sessionStats.requests.map (fun r => r.outputTokens)).sum := by
  induction h with
  | constructed options fs now => exact ⟨rfl, rfl⟩
  | tracked now usage _ hok ih =>
    obtain ⟨-, -, -, -, hin, hout, -, htotalIn, htotalOut, -, hrequests⟩ :=
      trackRequest_ok_iff _ _ _ _ _ hok
    rw [htotalIn, htotalOut, hrequests, ih.1, ih.2]
    simp [hin, hout]

theorem step_requests (state : TokenCounter × FileSystem) (call : Call) :
    state.1.sessionStats.requests <+: (step state call).1.sessionStats.requests := by
  rcases step_instance state call with heq | ⟨now, usage, record, hok⟩
  · rw [heq]
  · obtain ⟨-, -, -, -, -, -, -, -, -, -, hrequests⟩ := trackRequest_ok_iff _ _ _ _ _ hok
    rw [hrequests]
    exact List.prefix_append _ _

theorem run_requests (calls : List Call) :
    ∀ state : TokenCounter × FileSystem,
      state.1.sessionStats.requests <+: (run state calls).1.sessionStats.requests := by
  induction calls with
  | nil => intro state; exact List.prefix_refl _
  | cons call rest ih =>
    intro state
    unfold run
    exact (step_requests state call).trans (ih _)

end TokenCounter

namespace TokenCounter

/-- C13: in every state reached from a new instance by `trackRequest`,
`getTopExpensiveRequests`, `getTotalStats` and `saveHistory` calls,
`requestCount` is the number of records and the token totals are the sums over
the records; a `trackRequest` that returns appends exactly the returned record,
and further calls only ever extend the sequence of records at its end. -/
theorem session_invariant (options : Options) (fs fs' : FileSystem) (now : DateTime)
    (calls : List Call) :
    (run (TokenCounter.new options fs now, fs') calls).1.sessionStats.requestCount
      = (run (TokenCounter.new options fs now, fs') calls).1.sessionStats.requests.length ∧
    (run (TokenCounter.new options fs now, fs') calls).1.sessionStats.totalInputTokens
      = ((run (TokenCounter.new options fs now, fs') calls).1.sessionStats.requests.map
          (fun r => r.inputTokens)).sum ∧
    (run (TokenCounter.new options fs now, fs') calls).1.sessionStats.totalOutputTokens
      = ((run (TokenCounter.new options fs now, fs') calls).1.sessionStats.requests.map
          (fun r => r.outputTokens)).sum ∧
    (∀ later usage record next,
      (run (TokenCounter.new options fs now, fs') calls).1.trackRequest later usage
        = .ok (record, next) →
      next.sessionStats.requests
        = (run (TokenCounter.new options fs now, fs') calls).1.sessionStats.requests
          ++ [record] ∧
      next.sessionStats.requestCount
        = (run (TokenCounter.new options fs now, fs') calls).1.sessionStats.requestCount + 1) ∧
    (∀ more : List Call,
      (run (TokenCounter.new options fs now, fs') calls).1.sessionStats.requests
        <+: (run (run (TokenCounter.new options fs now, fs') calls)
          more).1.sessionStats.requests) := by
  have hreach : Reachable (run (TokenCounter.new options fs now, fs') calls).1 :=
    run_reachable calls _ (Reachable.constructed options fs now)
  refine ⟨reachable_requestCount _ hreach, (reachable_token_sums _ hreach).1,
    (reachable_token_sums _ hreach).2, ?_, ?_⟩
  · intro later usage record next hok
    obtain ⟨-, -, -, -, -, -, -, -, -, hcount, hrequests⟩ := trackRequest_ok_iff _ _ _ _ _ hok
    exact ⟨hrequests, hcount⟩
  · intro more
    exact run_requests more _

/-- C13 (witness): after a request, a save, a query of the totals, a second
request and a query of the top requests, the instance holds 2 records with
350 input and 750 output tokens, and a third request is appended at the end. -/
theorem session_invariant_witness :
    (run (TokenCounter.new noOptions emptyFileSystem sampleTime, emptyFileSystem)
      sampleCalls).1.sessionStats.requestCount = 2 ∧
    (run (TokenCounter.new noOptions emptyFileSystem sampleTime, emptyFileSystem)
      sampleCalls).1.sessionStats.requests.length = 2 ∧
    (run (TokenCounter.new noOptions emptyFileSystem sampleTime, emptyFileSystem)
      sampleCalls).1.sessionStats.totalInputTokens = 350 ∧
    (run (TokenCounter.new noOptions emptyFileSystem sampleTime, emptyFileSystem)
      sampleCalls).1.sessionStats.totalOutputTokens = 750 ∧
    ∃ record next,
      (run (TokenCounter.new noOptions emptyFileSystem sampleTime, emptyFileSystem)
        sampleCalls).1.trackRequest sampleTime ⟨100, 250, some "gpt-3.5-turbo", none⟩
          = .ok (record, next) ∧
      next.sessionStats.requests
        = (run (TokenCounter.new noOptions emptyFileSystem sampleTime, emptyFileSystem)
          sampleCalls).1.sessionStats.requests ++ [record] ∧
      next.sessionStats.requestCount = 3 := by
  have hinv := session_invariant noOptions emptyFileSystem emptyFileSystem sampleTime
    sampleCalls
  have hcount : (run (TokenCounter.new noOptions emptyFileSystem sampleTime, emptyFileSystem)
      sampleCalls).1.sessionStats.requestCount = 2 := rfl
  have hin : (run (TokenCounter.new noOptions emptyFileSystem sampleTime, emptyFileSystem)
      sampleCalls).1.sessionStats.totalInputTokens = 0 + 150 + 200 := rfl
  have hout : (run (TokenCounter.new noOptions emptyFileSystem sampleTime, emptyFileSystem)
      sampleCalls).1.sessionStats.totalOutputTokens = 0 + 300 + 450 := rfl
  have hstep : ∃ record next,
      (run (TokenCounter.new noOptions emptyFileSystem sampleTime, emptyFileSystem)
        sampleCalls).1.trackRequest sampleTime ⟨100, 250, some "gpt-3.5-turbo", none⟩
          = .ok (record, next) := ⟨_, _, rfl⟩
  obtain ⟨record, next, hok⟩ := hstep
  obtain ⟨hrequests, hnext⟩ := hinv.2.2.2.1 sampleTime _ record next hok
  refine ⟨hcount, ?_, ?_, ?_, record, next, hok, hrequests, ?_⟩
  · rw [← hinv.1, hcount]
  · rw [hin]; norm_num
  · rw [hout]; norm_num
  · rw [hnext, hcount]

end TokenCounter

/-! ## Rounding drift of the session total -/

theorem toFixed6_of_multiple (n : ℤ) : toFixed6 ((n : ℚ) / 1000000) = (n : ℚ) / 1000000 := by
  unfold toFixed6
  split
  · rfl
  · have h : (n : ℚ) / 1000000 * 1000000 + 1 / 2 = ((n : ℤ) : ℚ) + 1 / 2 := by ring
    have hfloor : ⌊((n : ℤ) : ℚ) + 1 / 2⌋ = n := by
      rw [Int.floor_eq_iff]
      constructor <;> norm_num
    rw [h, hfloor]

theorem fixed6_of_multiple (n : ℤ) : fixed6 ((n : ℚ) / 1000000) = (n : ℚ) / 1000000 := by
  unfold fixed6
  split
  · have h : -((n : ℚ) / 1000000) = ((-n : ℤ) : ℚ) / 1000000 := by push_cast; ring
    rw [h, toFixed6_of_multiple]
    push_cast
    ring
  · exact toFixed6_of_multiple n

theorem JsNumber.add_eq_fin (a b : JsNumber) (t : ℚ) (h : a.add b = .fin t) :
    ∃ x y, a = .fin x ∧ b = .fin y ∧ t = roundDouble (x + y) := by
  cases a with
  | nan => cases h
  | fin x =>
    cases b with
    | nan => cases h
    | fin y =>
      simp only [JsNumber.add, JsNumber.fin.injEq] at h
      exact ⟨x, y, rfl, rfl, h.symm⟩

theorem JsNumber.add_idem (a b : JsNumber) (t : ℚ) (h : a.add b = .fin t) :
    roundDouble t = t := by
  obtain ⟨x, y, -, -, ht⟩ := JsNumber.add_eq_fin a b t h
  rw [ht, roundDouble_idem]

namespace TokenCounter

theorem unroundedCost_idem (self : TokenCounter) (usage : Usage) (c : ℚ)
    (h : unroundedCost self usage = .fin c) : roundDouble c = c := by
  unfold unroundedCost at h
  cases hp : self.modelPricing (usage.model.getD "default") with
  | none => rw [hp] at h; cases h
  | some value =>
    rw [hp] at h
    exact JsNumber.add_idem _ _ c h

theorem round6_of_multiple (self : TokenCounter) (usage : Usage) (n : ℤ)
    (h : unroundedCost self usage = .fin ((n : ℚ) / 1000000)) :
    round6 (unroundedCost self usage) = unroundedCost self usage := by
  have hidem := unroundedCost_idem self usage _ h
  rw [h]
  simp only [round6, fixed6_of_multiple, hidem]

theorem step_drift (start cost : ℚ) :
    |roundDouble (start + cost) - start - roundDouble (fixed6 cost)|
      ≤ 0.0000005
        + (|roundDouble (start + cost)| + |roundDouble (fixed6 cost)|) / 2 ^ 53 := by
  have h1 := roundDouble_sub_abs (start + cost)
  have h2 := roundDouble_sub_abs (fixed6 cost)
  have h3 := fixed6_sub_abs cost
  have heq : roundDouble (start + cost) - start - roundDouble (fixed6 cost)
      = (roundDouble (start + cost) - (start + cost)) - (fixed6 cost - cost)
        - (roundDouble (fixed6 cost) - fixed6 cost) := by ring
  rw [heq]
  have hhalf : (0.0000005 : ℚ) = 1 / 2000000 := by norm_num
  rw [hhalf, add_div]
  rw [abs_le] at h1 h2 h3 ⊢
  constructor <;> linarith [h1.1, h1.2, h2.1, h2.2, h3.1, h3.2]

theorem trackRequests_drift (calls : List (DateTime × Usage)) :
    ∀ (self : TokenCounter) (records : List RequestRecord) (final : TokenCounter) (total : ℚ),
      self.trackRequests calls = .ok (records, final) →
      final.sessionStats.totalCost = .fin total →
      ∃ (start : ℚ) (totals stored : List ℚ),
        self.sessionStats.totalCost = .fin start ∧
        runningTotals self calls = totals.map JsNumber.fin ∧
        records.map (fun r => r.totalCost) = stored.map JsNumber.fin ∧
        |total - start - stored.sum| ≤ (calls.length : ℚ) * 0.0000005
          + ((totals.map (fun t => |t|)).sum + (stored.map (fun r => |r|)).sum) / 2 ^ 53 := by
  induction calls with
  | nil =>
    intro self records final total h htotal
    simp only [trackRequests, Except.ok.injEq, Prod.mk.injEq] at h
    obtain ⟨h1, h2⟩ := h
    subst h1 h2
    exact ⟨total, [], [], htotal, rfl, rfl, by simp⟩
  | cons call rest ih =>
    intro self records final total h htotal
    obtain ⟨now, usage⟩ := call
    unfold trackRequests at h
    cases hstep : self.trackRequest now usage with
    | error e => simp [hstep] at h
    | ok step =>
      obtain ⟨record, next⟩ := step
      rw [hstep] at h
      simp only at h
      cases hrest : next.trackRequests rest with
      | error e => simp [hrest] at h
      | ok out =>
        obtain ⟨records', final'⟩ := out
        rw [hrest] at h
        simp only [Except.ok.injEq, Prod.mk.injEq] at h
        obtain ⟨h1, h2⟩ := h
        subst h1 h2
        obtain ⟨-, -, -, hcost, -, -, hnext, -⟩ :=
          trackRequest_ok_iff self now usage record next hstep
        obtain ⟨middle, totals, stored, hmiddle, htotals, hstored, hbound⟩ :=
          ih next records' final' total hrest htotal
        rw [hmiddle] at hnext
        obtain ⟨start, cost, hstart, hunrounded, hsum⟩ :=
          JsNumber.add_eq_fin _ _ middle hnext.symm
        refine ⟨start, middle :: totals, roundDouble (fixed6 cost) :: stored, hstart, ?_, ?_, ?_⟩
        · simp only [runningTotals, hstep, hmiddle, htotals, List.map_cons]
        · simp only [List.map_cons, hcost, hunrounded, round6, hstored]
        · have hone := step_drift start cost
          rw [← hsum] at hone
          simp only [List.length_cons, List.map_cons, List.sum_cons, Nat.cast_add, Nat.cast_one]
          have heq : total - start - (roundDouble (fixed6 cost) + stored.sum)
              = (total - middle - stored.sum)
                + (middle - start - roundDouble (fixed6 cost)) := by ring
          rw [heq]
          have htri := abs_add (total - middle - stored.sum)
            (middle - start - roundDouble (fixed6 cost))
          have hsplit : ((rest.length : ℚ) + 1) * 0.0000005
              + (|middle| + (totals.map (fun t => |t|)).sum
                + (|roundDouble (fixed6 cost)| + (stored.map (fun r => |r|)).sum)) / 2 ^ 53
              = ((rest.length : ℚ) * 0.0000005
                + ((totals.map (fun t => |t|)).sum + (stored.map (fun r => |r|)).sum) / 2 ^ 53)
                + (0.0000005 + (|middle| + |roundDouble (fixed6 cost)|) / 2 ^ 53) := by ring
          rw [hsplit]
          linarith

theorem trackRequests_of_multiples (calls : List (DateTime × Usage)) (self : TokenCounter)
    (records : List RequestRecord) (final : TokenCounter)
    (hrun : self.trackRequests calls = .ok (records, final))
    (hmultiples : ∀ c ∈ calls, ∃ n : ℤ,
      unroundedCost self c.2 = .fin ((n : ℚ) / 1000000)) :
    records.map (fun r => r.totalCost) = calls.map (fun c => unroundedCost self c.2) ∧
    final.sessionStats.totalCost
      = records.foldl (fun acc record => acc.add record.totalCost)
          self.sessionStats.totalCost := by
  obtain ⟨-, htotal, hrecords⟩ := trackRequests_totalCost calls self records final hrun
  have hsame : records.map (fun r => r.totalCost)
      = calls.map (fun c => unroundedCost self c.2) := by
    rw [hrecords]
    apply List.map_congr_left
    intro c hc
    obtain ⟨n, hn⟩ := hmultiples c hc
    exact round6_of_multiple self c.2 n hn
  refine ⟨hsame, ?_⟩
  rw [htotal]
  have h1 : calls.foldl (fun acc c => acc.add (unroundedCost self c.2))
      self.sessionStats.totalCost
      = (calls.map (fun c => unroundedCost self c.2)).foldl (fun acc x => acc.add x)
          self.sessionStats.totalCost := by
    rw [List.foldl_map]
  have h2 : records.foldl (fun acc record => acc.add record.totalCost)
      self.sessionStats.totalCost
      = (records.map (fun r => r.totalCost)).foldl (fun acc x => acc.add x)
          self.sessionStats.totalCost := by
    rw [List.foldl_map]
  rw [h1, h2, hsame]

/-- C14 (counterexample): ten requests of 1 input token each on
`gpt-3.5-turbo` store ten costs of 0 and leave the running total at the double
of 0.000005, which exceeds 10 × 0.0000005, also when that bound is computed in
doubles. One request of 350 output tokens on `gpt-4` has the cost
21000 × 0.000001, yet the running total is 0.020999999999999998 while the
record stores 0.021. -/
theorem totalCost_drift_exceeds_bound :
    (((TokenCounter.new noOptions emptyFileSystem sampleTime).trackRequests
        tinyCalls).toOption.map
      (fun p => (p.2.sessionStats.totalCost, p.1.map (fun r => r.totalCost)))
      = some (JsNumber.ofDecimal 0.000005, List.replicate 10 (.fin 0))) ∧
    (tinyCalls.length : ℚ) * 0.0000005 < |roundDouble 0.000005 - 0| ∧
    (JsNumber.ofDecimal 0.000005 ≤ (JsNumber.fin 10).mul (JsNumber.ofDecimal 0.0000005))
      = False ∧
    (((TokenCounter.new noOptions emptyFileSystem sampleTime).trackRequests
        [(sampleTime, ⟨0, 350, some "gpt-4", none⟩)]).toOption.map
      (fun p => (p.2.sessionStats.totalCost, p.1.map (fun r => r.totalCost)))
      = some (JsNumber.ofDecimal 0.020999999999999998, [JsNumber.ofDecimal 0.021])) ∧
    (0 : ℚ) / 1000 * 0.03 + 350 / 1000 * 0.06 = 21000 * 0.000001 ∧
    JsNumber.ofDecimal 0.020999999999999998 ≠ JsNumber.ofDecimal 0.021 := by
  decide!

/-- C14 (amended): after any N `trackRequest` calls on a new instance that
leave a numeric running total, the running total differs from the exact sum
of the N stored `totalCost` fields by at most N × 0.0000005 plus a double
rounding allowance of 2⁻⁵³ times the sum of the absolute running totals after
each call and of the absolute stored costs. When every request's unrounded
double cost is a multiple of 0.000001, each record stores that cost unchanged
and the running total is the double sum, from 0 and left to right, of the
stored costs. -/
theorem totalCost_drift (options : Options) (fs : FileSystem) (now : DateTime)
    (calls : List (DateTime × Usage)) (records : List RequestRecord) (final : TokenCounter)
    (hrun : (TokenCounter.new options fs now).trackRequests calls = .ok (records, final))
    (hnumeric : final.sessionStats.totalCost ≠ .nan) :
    (∃ (total : ℚ) (totals stored : List ℚ),
      final.sessionStats.totalCost = .fin total ∧
      runningTotals (TokenCounter.new options fs now) calls = totals.map JsNumber.fin ∧
      records.map (fun r => r.totalCost) = stored.map JsNumber.fin ∧
      |total - stored.sum| ≤ (calls.length : ℚ) * 0.0000005
        + ((totals.map (fun t => |t|)).sum + (stored.map (fun r => |r|)).sum) / 2 ^ 53) ∧
    ((∀ c ∈ calls, ∃ n : ℤ,
        unroundedCost (TokenCounter.new options fs now) c.2 = .fin ((n : ℚ) / 1000000)) →
      records.map (fun r => r.totalCost)
        = calls.map (fun c => unroundedCost (TokenCounter.new options fs now) c.2) ∧
      final.sessionStats.totalCost = sumOfTotalCosts records) := by
  constructor
  · cases htotal : final.sessionStats.totalCost with
    | nan => exact absurd htotal hnumeric
    | fin total =>
      obtain ⟨start, totals, stored, hstart, htotals, hstored, hbound⟩ :=
        trackRequests_drift calls _ records final total hrun htotal
      have hzero : start = 0 := by
        have h : (TokenCounter.new options fs now).sessionStats.totalCost = .fin 0 := rfl
        rw [h] at hstart
        injection hstart with hstart
        exact hstart.symm
      rw [hzero, sub_zero] at hbound
      exact ⟨total, totals, stored, rfl, htotals, hstored, hbound⟩
  · intro hmultiples
    exact trackRequests_of_multiples calls _ records final hrun hmultiples

end TokenCounter

namespace TokenCounter

theorem exampleTotals :
    ((TokenCounter.new noOptions emptyFileSystem sampleTime).trackRequests
        [(sampleTime, ⟨150, 300, some "gpt-4", none⟩),
         (sampleTime, ⟨200, 450, some "claude-sonnet-4-5", none⟩)]).toOption.map
      (fun p => (p.2.sessionStats.totalCost, p.1.map (fun r => r.totalCost)))
      = some (JsNumber.ofDecimal 0.029849999999999998,
          [JsNumber.ofDecimal 0.0225, JsNumber.ofDecimal 0.00735]) ∧
    runningTotals (TokenCounter.new noOptions emptyFileSystem sampleTime)
        [(sampleTime, ⟨150, 300, some "gpt-4", none⟩),
         (sampleTime, ⟨200, 450, some "claude-sonnet-4-5", none⟩)]
      = [JsNumber.ofDecimal 0.0225, JsNumber.ofDecimal 0.029849999999999998] ∧
    ((TokenCounter.new binaryOptions emptyFileSystem sampleTime).trackRequests
        [(sampleTime, ⟨1000, 1000, none, none⟩),
         (sampleTime, ⟨2000, 0, none, none⟩)]).toOption.map
      (fun p => (p.2.sessionStats.totalCost, p.1.map (fun r => r.totalCost)))
      = some (JsNumber.fin 1.75, [JsNumber.fin 0.75, JsNumber.fin 1]) ∧
    unroundedCost (TokenCounter.new binaryOptions emptyFileSystem sampleTime)
        ⟨1000, 1000, none, none⟩ = .fin (((750000 : ℤ) : ℚ) / 1000000) ∧
    unroundedCost (TokenCounter.new binaryOptions emptyFileSystem sampleTime)
        ⟨2000, 0, none, none⟩ = .fin (((1000000 : ℤ) : ℚ) / 1000000) := by
  decide!

/-- C14 (witness): the first two requests of the usage example leave the
running total 0.029849999999999998 with stored costs 0.0225 and 0.00735, and
the bound holds for them. With the rates 0.5 and 0.25 per 1000 tokens, two
requests cost 0.75 and 1, both multiples of 0.000001: the records store 0.75
and 1 and the running total 1.75 is their sum. -/
theorem totalCost_drift_witness :
    (∃ records final,
      (TokenCounter.new noOptions emptyFileSystem sampleTime).trackRequests
        [(sampleTime, ⟨150, 300, some "gpt-4", none⟩),
         (sampleTime, ⟨200, 450, some "claude-sonnet-4-5", none⟩)] = .ok (records, final) ∧
      final.sessionStats.totalCost = JsNumber.ofDecimal 0.029849999999999998 ∧
      records.map (fun r => r.totalCost)
        = [JsNumber.ofDecimal 0.0225, JsNumber.ofDecimal 0.00735] ∧
      ∃ (total : ℚ) (totals stored : List ℚ),
        final.sessionStats.totalCost = .fin total ∧
        runningTotals (TokenCounter.new noOptions emptyFileSystem sampleTime)
            [(sampleTime, ⟨150, 300, some "gpt-4", none⟩),
             (sampleTime, ⟨200, 450, some "claude-sonnet-4-5", none⟩)]
          = totals.map JsNumber.fin ∧
        records.map (fun r => r.totalCost) = stored.map JsNumber.fin ∧
        |total - stored.sum| ≤ ((2 : ℕ) : ℚ) * 0.0000005
          + ((totals.map (fun t => |t|)).sum + (stored.map (fun r => |r|)).sum) / 2 ^ 53) ∧
    (∃ records final,
      (TokenCounter.new binaryOptions emptyFileSystem sampleTime).trackRequests
        [(sampleTime, ⟨1000, 1000, none, none⟩),
         (sampleTime, ⟨2000, 0, none, none⟩)] = .ok (records, final) ∧
      records.map (fun r => r.totalCost) = [JsNumber.fin 0.75, JsNumber.fin 1] ∧
      final.sessionStats.totalCost = JsNumber.fin 1.75 ∧
      final.sessionStats.totalCost = sumOfTotalCosts records) := by
  obtain ⟨hexample, -, hbinary, hfirst, hsecond⟩ := exampleTotals
  constructor
  · have hrun : ∃ records final,
        (TokenCounter.new noOptions emptyFileSystem sampleTime).trackRequests
          [(sampleTime, ⟨150, 300, some "gpt-4", none⟩),
           (sampleTime, ⟨200, 450, some "claude-sonnet-4-5", none⟩)]
          = .ok (records, final) := ⟨_, _, rfl⟩
    obtain ⟨records, final, hok⟩ := hrun
    rw [hok] at hexample
    simp only [Except.toOption, Option.map_some', Option.some.injEq, Prod.mk.injEq] at hexample
    have hnumeric : final.sessionStats.totalCost ≠ .nan := by
      rw [hexample.1]
      intro h
      cases h
    exact ⟨records, final, hok, hexample.1, hexample.2,
      (totalCost_drift noOptions emptyFileSystem sampleTime _ records final hok hnumeric).1⟩
  · have hrun : ∃ records final,
        (TokenCounter.new binaryOptions emptyFileSystem sampleTime).trackRequests
          [(sampleTime, ⟨1000, 1000, none, none⟩),
           (sampleTime, ⟨2000, 0, none, none⟩)] = .ok (records, final) := ⟨_, _, rfl⟩
    obtain ⟨records, final, hok⟩ := hrun
    rw [hok] at hbinary
    simp only [Except.toOption, Option.map_some', Option.some.injEq, Prod.mk.injEq] at hbinary
    have hnumeric : final.sessionStats.totalCost ≠ .nan := by
      rw [hbinary.1]
      intro h
      cases h
    have hmultiples : ∀ c ∈ [(sampleTime, (⟨1000, 1000, none, none⟩ : Usage)),
        (sampleTime, (⟨2000, 0, none, none⟩ : Usage))], ∃ n : ℤ,
        unroundedCost (TokenCounter.new binaryOptions emptyFileSystem sampleTime) c.2
          = .fin ((n : ℚ) / 1000000) := by
      intro c hc
      simp only [List.mem_cons, List.mem_singleton, List.not_mem_nil, or_false] at hc
      rcases hc with hc | hc
      · rw [hc]
        exact ⟨750000, hfirst⟩
      · rw [hc]
        exact ⟨1000000, hsecond⟩
    exact ⟨records, final, hok, hbinary.2, hbinary.1,
      ((totalCost_drift binaryOptions emptyFileSystem sampleTime _ records final hok
        hnumeric).2 hmultiples).2⟩

end TokenCounter
